import Mathlib

/-!
Shallow embedding of the BedrockSimulator cost-modeling engine
(src/FE-BedrockCostOptimizer/src/app/components/simulator-engine.ts and the
parameter-sweep logic of workload-simulator.tsx) over exact rational
arithmetic.  Token counts and prices are rationals; student and turn counts
are naturals (the data model declares them positive integers).  JavaScript
"number | null" prices become "Option ℚ" and "x ?? 0" becomes ".getD 0".
The value "Infinity" produced for an unreachable break-even threshold is
modelled as "none" in an "Option ℚ".
-/

/-- Mirrors ModelPricing from pricing-data.ts (per-1000-token prices). -/
structure ModelPricing where
  input_1k : ℚ
  output_1k : ℚ
  cache_write_1k : Option ℚ
  cache_write_1hour_1k : Option ℚ
  cache_read_1k : Option ℚ
  batch_input_1k : Option ℚ
  batch_output_1k : Option ℚ
deriving DecidableEq

/-- Mirrors BedrockModel from pricing-data.ts (only the pricing field is
read by the engine). -/
structure BedrockModel where
  pricing : ModelPricing
deriving DecidableEq

/-- Mirrors the CacheTTL union type "5min" | "1hour". -/
inductive CacheTTL where
  | fiveMin
  | oneHour
deriving DecidableEq

/-- Mirrors the CostBreakdown interface of simulator-engine.ts. -/
structure CostBreakdown where
  cacheWrite : ℚ
  cacheRead : ℚ
  freshInput : ℚ
  output : ℚ
  guardrails : ℚ
  total : ℚ
deriving DecidableEq

/-- Mirrors SumStrategyBreakdown (CostBreakdown plus summarizationCalls). -/
structure SumStrategyBreakdown extends CostBreakdown where
  summarizationCalls : ℚ
deriving DecidableEq

/-- Mirrors the SummarizationSim interface. -/
structure SummarizationSim where
  historyPerTurn : List ℚ
  summarizationTurns : List ℕ
  totalHistoryTokensSent : ℚ
  avgHistoryPerTurn : ℚ
  numSummarizations : ℕ
  turnsPerCycle : ℤ
deriving DecidableEq

/-- Mirrors SummarizationCostResult.  The source stores "Infinity" in
breakEvenK when the denominator is not positive; here that is "none". -/
structure SummarizationCostResult where
  mainCallCost : ℚ
  summarizationCallCost : ℚ
  totalCost : ℚ
  numSummarizations : ℕ
  avgHistoryPerTurn : ℚ
  vsWindowSavings : ℚ
  vsWindowSavingsPct : ℚ
  turnsPerCycle : ℤ
  breakEvenK : Option ℚ
  summaryCachingViable : Bool
  summaryCachingSavings : ℚ
deriving DecidableEq

/-- CHARS_PER_TOKEN constant. -/
def CHARS_PER_TOKEN : ℚ := 4

/-- GUARDRAILS_COST_PER_1K_UNITS constant (0.15). -/
def GUARDRAILS_COST_PER_1K_UNITS : ℚ := 15 / 100

/-- getCacheWritePrice: the 1-hour price when requested and present,
otherwise the 5-minute price, defaulting to 0 when null. -/
def getCacheWritePrice (model : BedrockModel) (cacheTTL : CacheTTL) : ℚ :=
  match cacheTTL, model.pricing.cache_write_1hour_1k with
  | CacheTTL.oneHour, some w => w
  | _, _ => model.pricing.cache_write_1k.getD 0

/-- computeStrategyA: shared prefix (system+context) cached once, read on
every later request. -/
def computeStrategyA (model : BedrockModel) (students reqsPerStudent : ℕ)
    (sysTokens ctxTokens subTokens instTokens outputTokens tierMultiplier : ℚ)
    (cacheTTL : CacheTTL) : CostBreakdown :=
  let p := model.pricing
  let pInput := p.input_1k * tierMultiplier
  let pOutput := p.output_1k * tierMultiplier
  let pWrite := getCacheWritePrice model cacheTTL * tierMultiplier
  let pRead := p.cache_read_1k.getD 0 * tierMultiplier
  let totalRequests : ℚ := ((students * reqsPerStudent : ℕ) : ℚ)
  let cachedTokens := sysTokens + ctxTokens
  let freshTokens := subTokens + instTokens
  let cacheWrite := cachedTokens / 1000 * pWrite
  let cacheRead := (totalRequests - 1) * (cachedTokens / 1000) * pRead
  let freshInput := totalRequests * (freshTokens / 1000) * pInput
  let output := totalRequests * (outputTokens / 1000) * pOutput
  { cacheWrite := cacheWrite, cacheRead := cacheRead, freshInput := freshInput,
    output := output, guardrails := 0,
    total := cacheWrite + cacheRead + freshInput + output }

/-- computeStrategyB: per-submission caching, branching on whether the
submission segment is stable per student. -/
def computeStrategyB (model : BedrockModel) (students reqsPerStudent : ℕ)
    (sysTokens ctxTokens subTokens instTokens outputTokens tierMultiplier : ℚ)
    (submissionCacheable : Bool) (cacheTTL : CacheTTL) : CostBreakdown :=
  let p := model.pricing
  let pInput := p.input_1k * tierMultiplier
  let pOutput := p.output_1k * tierMultiplier
  let pWrite := getCacheWritePrice model cacheTTL * tierMultiplier
  let pRead := p.cache_read_1k.getD 0 * tierMultiplier
  let totalRequests : ℚ := ((students * reqsPerStudent : ℕ) : ℚ)
  let sharedTokens := sysTokens + ctxTokens
  let fullCachedTokens := sharedTokens + subTokens
  let cacheWrite :=
    if submissionCacheable then (students : ℚ) * (fullCachedTokens / 1000) * pWrite
    else sharedTokens / 1000 * pWrite + totalRequests * (subTokens / 1000) * pWrite
  let cacheRead :=
    if submissionCacheable then
      (students : ℚ) * ((reqsPerStudent : ℚ) - 1) * (fullCachedTokens / 1000) * pRead
    else (totalRequests - 1) * (sharedTokens / 1000) * pRead
  let freshInput := totalRequests * (instTokens / 1000) * pInput
  let output := totalRequests * (outputTokens / 1000) * pOutput
  { cacheWrite := cacheWrite, cacheRead := cacheRead, freshInput := freshInput,
    output := output, guardrails := 0,
    total := cacheWrite + cacheRead + freshInput + output }

/-- computeNoCaching: every token paid at the fresh input price. -/
def computeNoCaching (model : BedrockModel) (students reqsPerStudent : ℕ)
    (sysTokens ctxTokens subTokens instTokens outputTokens tierMultiplier : ℚ) :
    CostBreakdown :=
  let p := model.pricing
  let pInput := p.input_1k * tierMultiplier
  let pOutput := p.output_1k * tierMultiplier
  let totalRequests : ℚ := ((students * reqsPerStudent : ℕ) : ℚ)
  let allInputTokens := sysTokens + ctxTokens + subTokens + instTokens
  let freshInput := totalRequests * (allInputTokens / 1000) * pInput
  let output := totalRequests * (outputTokens / 1000) * pOutput
  { cacheWrite := 0, cacheRead := 0, freshInput := freshInput, output := output,
    guardrails := 0, total := freshInput + output }

/-- computeBatch: like no-caching but at batch prices, falling back to the
standard prices when a batch price is null. -/
def computeBatch (model : BedrockModel) (students reqsPerStudent : ℕ)
    (sysTokens ctxTokens subTokens instTokens outputTokens tierMultiplier : ℚ) :
    CostBreakdown :=
  let p := model.pricing
  let pInput := p.batch_input_1k.getD p.input_1k * tierMultiplier
  let pOutput := p.batch_output_1k.getD p.output_1k * tierMultiplier
  let totalRequests : ℚ := ((students * reqsPerStudent : ℕ) : ℚ)
  let allInputTokens := sysTokens + ctxTokens + subTokens + instTokens
  let freshInput := totalRequests * (allInputTokens / 1000) * pInput
  let output := totalRequests * (outputTokens / 1000) * pOutput
  { cacheWrite := 0, cacheRead := 0, freshInput := freshInput, output := output,
    guardrails := 0, total := freshInput + output }

/-- computeTokensPerExchange: round(outputTokens * 1.25). -/
def computeTokensPerExchange (outputTokens : ℚ) : ℤ :=
  round (outputTokens * (5 / 4 : ℚ))

/-- computeAvgHistoryTokens: average history size over the graduated ramp
followed by the capped regime. -/
def computeAvgHistoryTokens (historyCap : ℚ) (reqsPerStudent : ℕ)
    (outputTokens : ℚ) : ℚ :=
  if reqsPerStudent = 0 ∨ historyCap ≤ 0 then 0
  else
    let tpe := computeTokensPerExchange outputTokens
    if tpe ≤ 0 then historyCap
    else
      let rampCount : ℤ := min ⌈historyCap / (tpe : ℚ)⌉ (reqsPerStudent : ℤ)
      let rampSum : ℚ := (tpe : ℚ) * (rampCount : ℚ) * ((rampCount : ℚ) - 1) / 2
      let cappedCount : ℚ := max 0 ((reqsPerStudent : ℚ) - (rampCount : ℚ))
      let cappedSum : ℚ := historyCap * cappedCount
      (rampSum + cappedSum) / (reqsPerStudent : ℚ)

/-- computeHistoryAtTurn: min((turn-1)*tokensPerExchange, historyCap). -/
def computeHistoryAtTurn (turn : ℕ) (historyCap : ℚ) (outputTokens : ℚ) : ℚ :=
  if turn ≤ 1 then 0
  else
    let tpe := computeTokensPerExchange outputTokens
    min (((turn : ℚ) - 1) * (tpe : ℚ)) historyCap

/-- getEffectiveInstTokens: conversational workloads replace the history cap
with the graduated average. -/
def getEffectiveInstTokens (instTokens : ℚ) (reqsPerStudent : ℕ)
    (outputTokens : ℚ) (conversational : Bool) : ℚ :=
  if conversational then computeAvgHistoryTokens instTokens reqsPerStudent outputTokens
  else instTokens

/-- getEffectiveSubTokens: a progressively-written submission averages half
its final length over more than one turn. -/
def getEffectiveSubTokens (subTokens : ℚ) (reqsPerStudent : ℕ)
    (progressiveSubmission : Bool) : ℚ :=
  if ¬progressiveSubmission ∨ reqsPerStudent ≤ 1 then subTokens else subTokens / 2

/-- The body of the simulateSummarization for-loop, as structural recursion
over the remaining fuel (turn t runs from 1 upward; the loop bound is
reqsPerStudent).  Returns (historyPerTurn, summarizationTurns, total). -/
def simRun (tpe : ℤ) (historyCap summarySize : ℚ) (reqsPerStudent : ℕ) :
    ℕ → ℕ → ℚ → List ℚ × List ℕ × ℚ
  | 0, _, _ => ([], [], 0)
  | fuel + 1, t, history =>
    let advanced := history + (tpe : ℚ)
    if historyCap ≤ advanced ∧ t < reqsPerStudent then
      let r := simRun tpe historyCap summarySize reqsPerStudent fuel (t + 1) summarySize
      (history :: r.1, t :: r.2.1, history + r.2.2)
    else
      let r := simRun tpe historyCap summarySize reqsPerStudent fuel (t + 1) advanced
      (history :: r.1, r.2.1, history + r.2.2)

/-- simulateSummarization: the turn-by-turn history / summarization-event
trace.  Degenerate inputs return the empty simulation. -/
def simulateSummarization (reqsPerStudent : ℕ)
    (historyCap outputTokens summarySize : ℚ) : SummarizationSim :=
  let tpe := computeTokensPerExchange outputTokens
  if tpe ≤ 0 ∨ reqsPerStudent = 0 ∨ historyCap ≤ 0 then
    { historyPerTurn := [], summarizationTurns := [], totalHistoryTokensSent := 0,
      avgHistoryPerTurn := 0, numSummarizations := 0, turnsPerCycle := 0 }
  else
    let r := simRun tpe historyCap summarySize reqsPerStudent reqsPerStudent 1 0
    { historyPerTurn := r.1
      summarizationTurns := r.2.1
      totalHistoryTokensSent := r.2.2
      avgHistoryPerTurn :=
        if 0 < reqsPerStudent then r.2.2 / (reqsPerStudent : ℚ) else 0
      numSummarizations := r.2.1.length
      turnsPerCycle :=
        if 0 < tpe then ⌈(historyCap - summarySize) / (tpe : ℚ)⌉ else 0 }

/-- computeSummarizationCost: main-call cost plus summarization-call cost
plus the summary-caching break-even analysis. -/
def computeSummarizationCost (model : BedrockModel) (students reqsPerStudent : ℕ)
    (sysTokens ctxTokens subTokens instTokens outputTokens summarySize
      tierMultiplier : ℚ) (cacheTTL : CacheTTL) (windowCostTotal : ℚ) :
    SummarizationCostResult :=
  let p := model.pricing
  let pInput := p.input_1k * tierMultiplier
  let pOutput := p.output_1k * tierMultiplier
  let pRead := p.cache_read_1k.getD 0 * tierMultiplier
  let pWrite := getCacheWritePrice model cacheTTL * tierMultiplier
  let sim := simulateSummarization reqsPerStudent instTokens outputTokens summarySize
  let cachedPfx := sysTokens + ctxTokens
  let totalReqs : ℚ := ((students * reqsPerStudent : ℕ) : ℚ)
  let cacheWrite := cachedPfx / 1000 * pWrite
  let cacheRead := (totalReqs - 1) * (cachedPfx / 1000) * pRead
  let freshInput := (students : ℚ) * (sim.totalHistoryTokensSent / 1000) * pInput
    + totalReqs * (subTokens / 1000) * pInput
  let output := totalReqs * (outputTokens / 1000) * pOutput
  let mainCallCost := cacheWrite + cacheRead + freshInput + output
  let perSumInput := (sysTokens + instTokens) / 1000 * pInput
  let perSumOutput := summarySize / 1000 * pOutput
  let summarizationCallCost :=
    (students : ℚ) * (sim.numSummarizations : ℚ) * (perSumInput + perSumOutput)
  let totalCost := mainCallCost + summarizationCallCost
  let vsWindowSavings := windowCostTotal - totalCost
  let vsWindowSavingsPct :=
    if 0 < windowCostTotal then vsWindowSavings / windowCostTotal * 100 else 0
  let denominator := summarySize * (pInput - pRead)
  let breakEvenK : Option ℚ :=
    if 0 < denominator then
      some ((cachedPfx + summarySize) * (pWrite - pRead) / denominator)
    else none
  let summaryCachingViable : Bool :=
    match breakEvenK with
    | some bk => decide (bk ≤ (sim.turnsPerCycle : ℚ))
    | none => false
  let summaryCachingSavings : ℚ :=
    if 0 < sim.numSummarizations ∧ 0 < sim.turnsPerCycle then
      let K : ℚ := (sim.turnsPerCycle : ℚ)
      let perCycleFresh := K * (cachedPfx / 1000) * pRead + K * (summarySize / 1000) * pInput
      let perCycleCached := (cachedPfx + summarySize) / 1000 * pWrite
        + (K - 1) * ((cachedPfx + summarySize) / 1000) * pRead
      (students : ℚ) * (sim.numSummarizations : ℚ) * (perCycleFresh - perCycleCached)
    else 0
  { mainCallCost := mainCallCost
    summarizationCallCost := summarizationCallCost
    totalCost := totalCost
    numSummarizations := sim.numSummarizations
    avgHistoryPerTurn := sim.avgHistoryPerTurn
    vsWindowSavings := vsWindowSavings
    vsWindowSavingsPct := vsWindowSavingsPct
    turnsPerCycle := sim.turnsPerCycle
    breakEvenK := breakEvenK
    summaryCachingViable := summaryCachingViable
    summaryCachingSavings := summaryCachingSavings }

/-- computeSumNoCaching: summarization workload with no prompt caching. -/
def computeSumNoCaching (model : BedrockModel) (students reqsPerStudent : ℕ)
    (sysTokens ctxTokens subTokens instTokens outputTokens summarySize
      tierMultiplier : ℚ) : SumStrategyBreakdown :=
  let p := model.pricing
  let pInput := p.input_1k * tierMultiplier
  let pOutput := p.output_1k * tierMultiplier
  let sim := simulateSummarization reqsPerStudent instTokens outputTokens summarySize
  let totalReqs : ℚ := ((students * reqsPerStudent : ℕ) : ℚ)
  let fixedPerReq := sysTokens + ctxTokens + subTokens
  let freshInput := totalReqs * (fixedPerReq / 1000) * pInput
    + (students : ℚ) * (sim.totalHistoryTokensSent / 1000) * pInput
  let output := totalReqs * (outputTokens / 1000) * pOutput
  let perSumInput := (sysTokens + instTokens) / 1000 * pInput
  let perSumOutput := summarySize / 1000 * pOutput
  let summarizationCalls :=
    (students : ℚ) * (sim.numSummarizations : ℚ) * (perSumInput + perSumOutput)
  { cacheWrite := 0, cacheRead := 0, freshInput := freshInput, output := output,
    guardrails := 0, summarizationCalls := summarizationCalls,
    total := freshInput + output + summarizationCalls }

/-- computeSumCacheAssessment: summarization workload caching only the
shared assessment prefix (system+context). -/
def computeSumCacheAssessment (model : BedrockModel) (students reqsPerStudent : ℕ)
    (sysTokens ctxTokens subTokens instTokens outputTokens summarySize
      tierMultiplier : ℚ) (cacheTTL : CacheTTL) : SumStrategyBreakdown :=
  let p := model.pricing
  let pInput := p.input_1k * tierMultiplier
  let pOutput := p.output_1k * tierMultiplier
  let pWrite := getCacheWritePrice model cacheTTL * tierMultiplier
  let pRead := p.cache_read_1k.getD 0 * tierMultiplier
  let sim := simulateSummarization reqsPerStudent instTokens outputTokens summarySize
  let cachedPfx := sysTokens + ctxTokens
  let totalReqs : ℚ := ((students * reqsPerStudent : ℕ) : ℚ)
  let cacheWrite := cachedPfx / 1000 * pWrite
  let cacheRead := (totalReqs - 1) * (cachedPfx / 1000) * pRead
  let freshInput := (students : ℚ) * (sim.totalHistoryTokensSent / 1000) * pInput
    + totalReqs * (subTokens / 1000) * pInput
  let output := totalReqs * (outputTokens / 1000) * pOutput
  let perSumInput := (sysTokens + instTokens) / 1000 * pInput
  let perSumOutput := summarySize / 1000 * pOutput
  let summarizationCalls :=
    (students : ℚ) * (sim.numSummarizations : ℚ) * (perSumInput + perSumOutput)
  { cacheWrite := cacheWrite, cacheRead := cacheRead, freshInput := freshInput,
    output := output, guardrails := 0, summarizationCalls := summarizationCalls,
    total := cacheWrite + cacheRead + freshInput + output + summarizationCalls }

/-- The per-turn loop of computeSumCacheSummary, as structural recursion
over the remaining fuel.  State: the hasSummary flag; result: the triple
(perStudentCacheWrite, perStudentCacheRead, perStudentFreshInput). -/
def cssRun (sim : SummarizationSim)
    (basePfx fullPfx summarySize subTokens pWrite pRead pInput : ℚ) :
    ℕ → ℕ → Bool → ℚ × ℚ × ℚ
  | 0, _, _ => (0, 0, 0)
  | fuel + 1, t, hasSummaryIn =>
    let history := sim.historyPerTurn.getD (t - 1) 0
    let hasSummary : Bool :=
      if 1 < t ∧ (t - 1) ∈ sim.summarizationTurns then true else hasSummaryIn
    let pfx := if hasSummary then fullPfx else basePfx
    let freshHistory := if hasSummary then max 0 (history - summarySize) else history
    let r := cssRun sim basePfx fullPfx summarySize subTokens pWrite pRead pInput
      fuel (t + 1) hasSummary
    ((if t = 1 ∨ (hasSummary = true ∧ (t - 1) ∈ sim.summarizationTurns)
        then pfx / 1000 * pWrite else 0) + r.1,
     (if t = 1 ∨ (hasSummary = true ∧ (t - 1) ∈ sim.summarizationTurns)
        then 0 else pfx / 1000 * pRead) + r.2.1,
     (subTokens + freshHistory) / 1000 * pInput + r.2.2)

/-- computeSumCacheSummary: summarization workload that folds the rolling
summary into the cached prefix, with the shared-prefix write/read
corrections across students. -/
def computeSumCacheSummary (model : BedrockModel) (students reqsPerStudent : ℕ)
    (sysTokens ctxTokens subTokens instTokens outputTokens summarySize
      tierMultiplier : ℚ) (cacheTTL : CacheTTL) : SumStrategyBreakdown :=
  let p := model.pricing
  let pInput := p.input_1k * tierMultiplier
  let pOutput := p.output_1k * tierMultiplier
  let pWrite := getCacheWritePrice model cacheTTL * tierMultiplier
  let pRead := p.cache_read_1k.getD 0 * tierMultiplier
  let sim := simulateSummarization reqsPerStudent instTokens outputTokens summarySize
  let basePfx := sysTokens + ctxTokens
  let fullPfx := basePfx + summarySize
  let totalReqs : ℚ := ((students * reqsPerStudent : ℕ) : ℚ)
  let r := cssRun sim basePfx fullPfx summarySize subTokens pWrite pRead pInput
    reqsPerStudent 1 false
  let sharedPfxWriteCorrection :=
    if 1 < students then ((students : ℚ) - 1) * (basePfx / 1000) * pWrite else 0
  let sharedPfxReadCorrection :=
    if 1 < students then ((students : ℚ) - 1) * (basePfx / 1000) * pRead else 0
  let cacheWrite := (students : ℚ) * r.1 - sharedPfxWriteCorrection
  let cacheRead := (students : ℚ) * r.2.1 + sharedPfxReadCorrection
  let freshInput := (students : ℚ) * r.2.2
  let output := totalReqs * (outputTokens / 1000) * pOutput
  let perSumInput := (sysTokens + instTokens) / 1000 * pInput
  let perSumOutput := summarySize / 1000 * pOutput
  let summarizationCalls :=
    (students : ℚ) * (sim.numSummarizations : ℚ) * (perSumInput + perSumOutput)
  { cacheWrite := cacheWrite, cacheRead := cacheRead, freshInput := freshInput,
    output := output, guardrails := 0, summarizationCalls := summarizationCalls,
    total := cacheWrite + cacheRead + freshInput + output + summarizationCalls }

/-- computeGuardrailsCost: guardrails text-unit pricing over input and
output tokens of every request. -/
def computeGuardrailsCost (totalRequests studentInputTokensPerRequest
    outputTokensPerRequest : ℚ) : ℚ :=
  let evaluatedChars :=
    (studentInputTokensPerRequest + outputTokensPerRequest) * CHARS_PER_TOKEN
  let textUnits := evaluatedChars / 1000
  totalRequests * (textUnits / 1000) * GUARDRAILS_COST_PER_1K_UNITS

/-- In paramSensitivityData each per-strategy point value is the strategy
breakdown total plus the guardrails cost computed by the caller. -/
def sweepPointTotal (breakdown : CostBreakdown) (guardrailsCost : ℚ) : ℚ :=
  breakdown.total + guardrailsCost

/-- One point of the parameter sweep as seen by the stabilization pass of
paramSensitivityData: the list of enabled strategies' total costs at the
point, plus the raw winner name and color. -/
structure SweepPoint where
  costs : List ℚ
  winner : String
  winnerColor : String
deriving DecidableEq

/-- Ascending numeric sort, as done by the sweep code's sort comparator. -/
def sortCosts (l : List ℚ) : List ℚ :=
  List.insertionSort (· ≤ ·) l

/-- Gap between the two cheapest strategies; none when fewer than two
strategies are present (the source uses Infinity there). -/
def tieGap (pt : SweepPoint) : Option ℚ :=
  match sortCosts pt.costs with
  | a :: b :: _ => some (b - a)
  | _ => none

/-- The near-tie condition of the stabilization pass: gap below the
absolute epsilon 0.005. -/
def nearTie (pt : SweepPoint) : Bool :=
  match tieGap pt with
  | some g => decide (g < 1 / 200)
  | none => false

/-- Assign the winner and winner color resolved at point r onto point q. -/
def assignFrom (r q : SweepPoint) : SweepPoint :=
  { q with winner := r.winner, winnerColor := r.winnerColor }

/-- The stabilization scan of paramSensitivityData with explicit fuel: at a
near-tie point, the maximal run of consecutive near-tie points is assigned
the winner of the first point after the run, or of the last point of the
grid when the run reaches the end. -/
def stabilizeGo : ℕ → List SweepPoint → List SweepPoint
  | 0, l => l
  | _ + 1, [] => []
  | fuel + 1, pt :: rest =>
    if nearTie pt then
      let ta := rest.takeWhile nearTie
      let da := rest.dropWhile nearTie
      let resolved :=
        match da with
        | r :: _ => r
        | [] => (pt :: ta).getLastD pt
      (pt :: ta).map (assignFrom resolved) ++ stabilizeGo fuel da
    else pt :: stabilizeGo fuel rest

/-- The stabilization pass over the whole sweep. -/
def stabilize (l : List SweepPoint) : List SweepPoint :=
  stabilizeGo l.length l

/-- The point whose winner a near-tie run receives: the head of what
follows the run, or the last point of the run when nothing follows. -/
def resolveOf (run b : List SweepPoint) : SweepPoint :=
  match b with
  | r :: _ => r
  | [] => run.getLastD { costs := [], winner := "", winnerColor := "" }

/-- STRATEGY_TIEBREAK ranks (default 99 for unknown names). -/
def strategyTiebreak (name : String) : ℕ :=
  if name = "Per-Assignment Cache" ∨ name = "Chat Sum. — Cache in Prefix" then 0
  else if name = "Per-Submission Cache" ∨ name = "Chat Sum. — Cache Prefix" then 1
  else if name = "Batch Inference" then 2
  else if name = "No Caching" ∨ name = "Chat Sum. — No Cache" then 3
  else 99

/-- The sort order used when picking the raw winner at a sweep point:
by cost, then by the fixed tie-break ranking. -/
def costOrder (a b : String × ℚ) : Prop :=
  a.2 < b.2 ∨ (a.2 = b.2 ∧ strategyTiebreak a.1 ≤ strategyTiebreak b.1)

instance : DecidableRel costOrder := fun a b => by
  unfold costOrder; infer_instance

/-- Raw winner at a sweep point: cheapest strategy, ties broken by the
fixed ranking. -/
def pickWinner (costs : List (String × ℚ)) : String :=
  ((List.insertionSort costOrder costs).headD ("", 0)).1

/-- The winner color map of paramSensitivityData (CHART_COLORS). -/
def colorFor (name : String) : String :=
  if name = "No Caching" ∨ name = "Chat Sum. — No Cache" then "#f97316"
  else if name = "Per-Assignment Cache" ∨ name = "Chat Sum. — Cache Prefix" then "#3b82f6"
  else if name = "Per-Submission Cache" then "#10b981"
  else if name = "Batch Inference" ∨ name = "Chat Sum. — Cache in Prefix" then "#a855f7"
  else "#999"

/-- Build a raw sweep point from named strategy costs, with the raw winner
and winner color as computed before stabilization. -/
def mkRawPoint (namedCosts : List (String × ℚ)) : SweepPoint :=
  { costs := namedCosts.map (fun c => c.2)
    winner := pickWinner namedCosts
    winnerColor := colorFor (pickWinner namedCosts) }

/-- The SensitivityParamKey union (keyof TemplatePreset). -/
inductive SensitivityParamKey where
  | students
  | reqsPerStudent
  | sysTokens
  | ctxTokens
  | subTokens
  | instTokens
  | outputTokens
deriving DecidableEq

/-- SENSITIVITY_SAMPLE_POINTS from simulator-engine.ts. -/
def SENSITIVITY_SAMPLE_POINTS : SensitivityParamKey → List ℤ
  | SensitivityParamKey.students => [5, 10, 15, 20, 30, 50, 75, 100, 150, 200]
  | SensitivityParamKey.reqsPerStudent => [1, 5, 10, 20, 50, 75, 100, 150, 200]
  | SensitivityParamKey.sysTokens => [100, 500, 1000, 2000, 5000, 10000]
  | SensitivityParamKey.ctxTokens => [500, 1000, 2000, 5000, 10000, 25000, 50000, 100000]
  | SensitivityParamKey.subTokens => [100, 500, 1000, 2000, 5000, 10000, 20000]
  | SensitivityParamKey.instTokens => [50, 200, 500, 1000, 2000, 5000, 10000]
  | SensitivityParamKey.outputTokens => [100, 500, 1000, 2000, 5000, 10000]

/-- The 40-point rounded linear grid over a sample range built by
paramSensitivityData. -/
def linspacePoints (range : List ℤ) : List ℤ :=
  let mn := range.headD 0
  let mx := range.getLastD 0
  let step : ℚ := ((mx - mn : ℤ) : ℚ) / 39
  (List.range 40).map (fun i => round ((mn : ℚ) + step * (i : ℚ)))

/-- Insert the live value of the swept parameter into the grid when absent,
then sort ascending, as paramSensitivityData does. -/
def insertCurrent (pts : List ℤ) (currentValue : ℤ) : List ℤ :=
  if currentValue ∈ pts then pts
  else List.insertionSort (· ≤ ·) (pts ++ [currentValue])

/-- The final ordered list of parameter values of a sweep. -/
def samplePointsFor (range : List ℤ) (currentValue : ℤ) : List ℤ :=
  insertCurrent (linspacePoints range) currentValue

/-- All prices of a price list are non-negative (absent prices count as
their 0 default). -/
def ModelPricing.NonNeg (p : ModelPricing) : Prop :=
  0 ≤ p.input_1k ∧ 0 ≤ p.output_1k ∧ 0 ≤ p.cache_write_1k.getD 0 ∧
    0 ≤ p.cache_write_1hour_1k.getD 0 ∧ 0 ≤ p.cache_read_1k.getD 0 ∧
    0 ≤ p.batch_input_1k.getD 0 ∧ 0 ≤ p.batch_output_1k.getD 0

instance (p : ModelPricing) : Decidable p.NonNeg := by
  unfold ModelPricing.NonNeg; infer_instance

/-- All six fields of a cost breakdown are non-negative. -/
def CostBreakdown.NonNegFields (b : CostBreakdown) : Prop :=
  0 ≤ b.cacheWrite ∧ 0 ≤ b.cacheRead ∧ 0 ≤ b.freshInput ∧ 0 ≤ b.output ∧
    0 ≤ b.guardrails ∧ 0 ≤ b.total

instance (b : CostBreakdown) : Decidable b.NonNegFields := by
  unfold CostBreakdown.NonNegFields; infer_instance

/-- The first sweep point of the stabilization example: strategy costs
10.001 and 9.999. -/
def tiePoint1 : SweepPoint :=
  mkRawPoint [("No Caching", 10001 / 1000), ("Per-Assignment Cache", 9999 / 1000)]

/-- The second sweep point of the stabilization example: both strategies
cost exactly 10. -/
def tiePoint2 : SweepPoint :=
  mkRawPoint [("No Caching", 10), ("Per-Assignment Cache", 10)]

/-- The third sweep point of the stabilization example: costs 12 and 8,
an unambiguous winner. -/
def tiePoint3 : SweepPoint :=
  mkRawPoint [("No Caching", 12), ("Per-Assignment Cache", 8)]

/-- A concrete Anthropic-like price list: input 0.003, output 0.015,
cacheWrite 1.25x input, cacheRead 0.1x input, no batch prices. -/
def anthModel : BedrockModel :=
  { pricing :=
    { input_1k := 3 / 1000
      output_1k := 15 / 1000
      cache_write_1k := some (15 / 4000)
      cache_write_1hour_1k := none
      cache_read_1k := some (3 / 10000)
      batch_input_1k := none
      batch_output_1k := none } }

/-! ## Theorems -/

/-- C9: In the scenario students=30, turns=5, system=1000, context=15000,
submission=2000, instruction=500, output=1000 with Anthropic-like pricing
and tier multiplier 1, Strategy A's cacheRead equals
149 x 16 x 0.1 x 0.003 = 0.7152 and No-Caching's freshInput equals
150 x 18.5 x 0.003 = 8.325. -/
theorem c9_scenario_values :
    (computeStrategyA anthModel 30 5 1000 15000 2000 500 1000 1
      CacheTTL.fiveMin).cacheRead = 7152 / 10000 ∧
    (computeNoCaching anthModel 30 5 1000 15000 2000 500 1000 1).freshInput
      = 8325 / 1000 := by
  constructor
  · norm_num [computeStrategyA, anthModel, getCacheWritePrice]
  · norm_num [computeNoCaching, anthModel]

/-- C10: every strategy compute function returns a breakdown whose
guardrails field is exactly 0; the guardrails cost lives only in
computeGuardrailsCost, which equals
totalRequests x (input+output) x 4 / 1000 / 1000 x 0.15, and the sweep
caller adds it on top of a breakdown's total. -/
theorem c10_guardrails_zero_and_separate :
    (∀ (m : BedrockModel) (students reqs : ℕ)
        (sys ctx sub inst out ss tier : ℚ) (ttl : CacheTTL) (sc : Bool),
      (computeNoCaching m students reqs sys ctx sub inst out tier).guardrails = 0 ∧
      (computeStrategyA m students reqs sys ctx sub inst out tier ttl).guardrails = 0 ∧
      (computeStrategyB m students reqs sys ctx sub inst out tier sc ttl).guardrails = 0 ∧
      (computeBatch m students reqs sys ctx sub inst out tier).guardrails = 0 ∧
      (computeSumNoCaching m students reqs sys ctx sub inst out ss tier).guardrails = 0 ∧
      (computeSumCacheAssessment m students reqs sys ctx sub inst out ss tier ttl).guardrails = 0 ∧
      (computeSumCacheSummary m students reqs sys ctx sub inst out ss tier ttl).guardrails = 0) ∧
    (∀ t i o : ℚ,
      computeGuardrailsCost t i o = t * (i + o) * 4 / 1000 / 1000 * (15 / 100)) ∧
    (∀ (b : CostBreakdown) (g : ℚ), sweepPointTotal b g = b.total + g) := by
  refine ⟨fun m students reqs sys ctx sub inst out ss tier ttl sc =>
    ⟨rfl, rfl, rfl, rfl, rfl, rfl, rfl⟩, fun t i o => ?_, fun b g => rfl⟩
  unfold computeGuardrailsCost CHARS_PER_TOKEN GUARDRAILS_COST_PER_1K_UNITS
  ring

/-- C1 (amended): for the four non-summarization strategies the total is
the sum of the five components cacheWrite+cacheRead+freshInput+output+
guardrails; for the three summarization variants the total is that sum
plus the summarizationCalls component. -/
theorem c1_total_components (m : BedrockModel) (students reqs : ℕ)
    (sys ctx sub inst out ss tier : ℚ) (ttl : CacheTTL) (sc : Bool) :
    ((computeNoCaching m students reqs sys ctx sub inst out tier).total =
      (computeNoCaching m students reqs sys ctx sub inst out tier).cacheWrite +
      (computeNoCaching m students reqs sys ctx sub inst out tier).cacheRead +
      (computeNoCaching m students reqs sys ctx sub inst out tier).freshInput +
      (computeNoCaching m students reqs sys ctx sub inst out tier).output +
      (computeNoCaching m students reqs sys ctx sub inst out tier).guardrails) ∧
    ((computeStrategyA m students reqs sys ctx sub inst out tier ttl).total =
      (computeStrategyA m students reqs sys ctx sub inst out tier ttl).cacheWrite +
      (computeStrategyA m students reqs sys ctx sub inst out tier ttl).cacheRead +
      (computeStrategyA m students reqs sys ctx sub inst out tier ttl).freshInput +
      (computeStrategyA m students reqs sys ctx sub inst out tier ttl).output +
      (computeStrategyA m students reqs sys ctx sub inst out tier ttl).guardrails) ∧
    ((computeStrategyB m students reqs sys ctx sub inst out tier sc ttl).total =
      (computeStrategyB m students reqs sys ctx sub inst out tier sc ttl).cacheWrite +
      (computeStrategyB m students reqs sys ctx sub inst out tier sc ttl).cacheRead +
      (computeStrategyB m students reqs sys ctx sub inst out tier sc ttl).freshInput +
      (computeStrategyB m students reqs sys ctx sub inst out tier sc ttl).output +
      (computeStrategyB m students reqs sys ctx sub inst out tier sc ttl).guardrails) ∧
    ((computeBatch m students reqs sys ctx sub inst out tier).total =
      (computeBatch m students reqs sys ctx sub inst out tier).cacheWrite +
      (computeBatch m students reqs sys ctx sub inst out tier).cacheRead +
      (computeBatch m students reqs sys ctx sub inst out tier).freshInput +
      (computeBatch m students reqs sys ctx sub inst out tier).output +
      (computeBatch m students reqs sys ctx sub inst out tier).guardrails) ∧
    ((computeSumNoCaching m students reqs sys ctx sub inst out ss tier).total =
      (computeSumNoCaching m students reqs sys ctx sub inst out ss tier).cacheWrite +
      (computeSumNoCaching m students reqs sys ctx sub inst out ss tier).cacheRead +
      (computeSumNoCaching m students reqs sys ctx sub inst out ss tier).freshInput +
      (computeSumNoCaching m students reqs sys ctx sub inst out ss tier).output +
      (computeSumNoCaching m students reqs sys ctx sub inst out ss tier).guardrails +
      (computeSumNoCaching m students reqs sys ctx sub inst out ss tier).summarizationCalls) ∧
    ((computeSumCacheAssessment m students reqs sys ctx sub inst out ss tier ttl).total =
      (computeSumCacheAssessment m students reqs sys ctx sub inst out ss tier ttl).cacheWrite +
      (computeSumCacheAssessment m students reqs sys ctx sub inst out ss tier ttl).cacheRead +
      (computeSumCacheAssessment m students reqs sys ctx sub inst out ss tier ttl).freshInput +
      (computeSumCacheAssessment m students reqs sys ctx sub inst out ss tier ttl).output +
      (computeSumCacheAssessment m students reqs sys ctx sub inst out ss tier ttl).guardrails +
      (computeSumCacheAssessment m students reqs sys ctx sub inst out ss tier ttl).summarizationCalls) ∧
    ((computeSumCacheSummary m students reqs sys ctx sub inst out ss tier ttl).total =
      (computeSumCacheSummary m students reqs sys ctx sub inst out ss tier ttl).cacheWrite +
      (computeSumCacheSummary m students reqs sys ctx sub inst out ss tier ttl).cacheRead +
      (computeSumCacheSummary m students reqs sys ctx sub inst out ss tier ttl).freshInput +
      (computeSumCacheSummary m students reqs sys ctx sub inst out ss tier ttl).output +
      (computeSumCacheSummary m students reqs sys ctx sub inst out ss tier ttl).guardrails +
      (computeSumCacheSummary m students reqs sys ctx sub inst out ss tier ttl).summarizationCalls) := by
  refine ⟨?_, ?_, ?_, ?_, ?_, ?_, ?_⟩ <;>
    simp only [computeNoCaching, computeStrategyA, computeStrategyB, computeBatch,
      computeSumNoCaching, computeSumCacheAssessment, computeSumCacheSummary] <;>
    ring

/-- C1 counterexample: for the summarization variants the claimed equality
total = cacheWrite+cacheRead+freshInput+output+guardrails fails, because
total also contains the summarizationCalls component.  Concretely with one
student, two turns, a 500-token history cap, 400 output tokens and a
200-token summary, one summarization event fires and the five-component
sum differs from the total. -/
theorem c1_counterexample :
    ¬ ((computeSumNoCaching anthModel 1 2 100 0 0 500 400 200 1).total =
      (computeSumNoCaching anthModel 1 2 100 0 0 500 400 200 1).cacheWrite +
      (computeSumNoCaching anthModel 1 2 100 0 0 500 400 200 1).cacheRead +
      (computeSumNoCaching anthModel 1 2 100 0 0 500 400 200 1).freshInput +
      (computeSumNoCaching anthModel 1 2 100 0 0 500 400 200 1).output +
      (computeSumNoCaching anthModel 1 2 100 0 0 500 400 200 1).guardrails) := by
  norm_num [computeSumNoCaching, simulateSummarization, simRun,
    computeTokensPerExchange, anthModel, round_eq]

/-- C3: computeSummarizationCost exposes
breakEvenK = (prefix+summarySize)(pWrite-pRead)/(summarySize(pInput-pRead))
with prefix = systemTokens+contextTokens, is infinite (modelled as none)
when the denominator is not positive, and summaryCachingViable holds
exactly when turnsPerCycle reaches breakEvenK.  Concretely, for prefix
3000, summary 500, pWrite = 1.25 pInput and pRead = 0.1 pInput the
threshold is 161/18, within 1 of 9: viable at turnsPerCycle 12, not viable
at turnsPerCycle 6. -/
theorem c3_breakEven (m : BedrockModel) (students reqs : ℕ)
    (sys ctx sub inst out ss tier wct : ℚ) (ttl : CacheTTL) :
    ((computeSummarizationCost m students reqs sys ctx sub inst out ss tier ttl wct).breakEvenK
      = if 0 < ss * (m.pricing.input_1k * tier - m.pricing.cache_read_1k.getD 0 * tier)
        then some ((sys + ctx + ss)
          * (getCacheWritePrice m ttl * tier - m.pricing.cache_read_1k.getD 0 * tier)
          / (ss * (m.pricing.input_1k * tier - m.pricing.cache_read_1k.getD 0 * tier)))
        else none) ∧
    (((computeSummarizationCost m students reqs sys ctx sub inst out ss tier ttl wct).summaryCachingViable = true)
      ↔ ∃ bk, (computeSummarizationCost m students reqs sys ctx sub inst out ss tier ttl wct).breakEvenK = some bk
          ∧ bk ≤ ((computeSummarizationCost m students reqs sys ctx sub inst out ss tier ttl wct).turnsPerCycle : ℚ)) ∧
    (computeSummarizationCost anthModel 1 12 1000 2000 0 6500 400 500 1
      CacheTTL.fiveMin 0).breakEvenK = some (161 / 18) ∧
    |(161 / 18 : ℚ) - 9| ≤ 1 ∧
    (computeSummarizationCost anthModel 1 12 1000 2000 0 6500 400 500 1
      CacheTTL.fiveMin 0).turnsPerCycle = 12 ∧
    (computeSummarizationCost anthModel 1 12 1000 2000 0 6500 400 500 1
      CacheTTL.fiveMin 0).summaryCachingViable = true ∧
    (computeSummarizationCost anthModel 1 6 1000 2000 0 3500 400 500 1
      CacheTTL.fiveMin 0).turnsPerCycle = 6 ∧
    (computeSummarizationCost anthModel 1 6 1000 2000 0 3500 400 500 1
      CacheTTL.fiveMin 0).summaryCachingViable = false := by
  refine ⟨rfl, ?_, ?_, by rw [abs_le]; constructor <;> norm_num, ?_, ?_, ?_, ?_⟩
  · simp only [computeSummarizationCost]
    by_cases hc : 0 < ss * (m.pricing.input_1k * tier - m.pricing.cache_read_1k.getD 0 * tier)
    · simp [hc, decide_eq_true_iff]
    · simp [hc]
  · norm_num [computeSummarizationCost, simulateSummarization, simRun,
      computeTokensPerExchange, anthModel, getCacheWritePrice, round_eq]
  · norm_num [computeSummarizationCost, simulateSummarization, simRun,
      computeTokensPerExchange, anthModel, getCacheWritePrice, round_eq]
  · norm_num [computeSummarizationCost, simulateSummarization, simRun,
      computeTokensPerExchange, anthModel, getCacheWritePrice, round_eq]
  · norm_num [computeSummarizationCost, simulateSummarization, simRun,
      computeTokensPerExchange, anthModel, getCacheWritePrice, round_eq]
  · norm_num [computeSummarizationCost, simulateSummarization, simRun,
      computeTokensPerExchange, anthModel, getCacheWritePrice, round_eq]

/-- C4 counterexample: with turns = 1, cap = 100 > 0 and outputTokens = 0
the claim demands a result of 0, but tokensPerExchange is 0 there and the
code returns the cap (100) instead. -/
theorem c4_counterexample : computeAvgHistoryTokens 100 1 0 ≠ 0 := by
  norm_num [computeAvgHistoryTokens, computeTokensPerExchange, round_eq]

/-- C4 (amended): provided tokensPerExchange is positive,
computeAvgHistoryTokens returns 0 at turns = 1 for every positive cap, and
whenever the ramp never completes (turns at most ceil(cap /
tokensPerExchange)) it equals the pure-ramp average
tokensPerExchange x (turns - 1) / 2. -/
theorem c4_avgHistory_amended (cap out : ℚ) (turns : ℕ)
    (hcap : 0 < cap) (htpe : 0 < computeTokensPerExchange out) :
    computeAvgHistoryTokens cap 1 out = 0 ∧
    (1 ≤ turns → (turns : ℤ) ≤ ⌈cap / (computeTokensPerExchange out : ℚ)⌉ →
      computeAvgHistoryTokens cap turns out
        = (computeTokensPerExchange out : ℚ) * ((turns : ℚ) - 1) / 2) := by
  have hcap' : ¬cap ≤ 0 := not_le.mpr hcap
  have htpe' : ¬computeTokensPerExchange out ≤ 0 := not_le.mpr htpe
  have hceil : (1 : ℤ) ≤ ⌈cap / (computeTokensPerExchange out : ℚ)⌉ := by
    have hq : (0 : ℚ) < cap / (computeTokensPerExchange out : ℚ) :=
      div_pos hcap (by exact_mod_cast htpe)
    exact Int.ceil_pos.mpr hq
  constructor
  · simp only [computeAvgHistoryTokens, hcap', htpe', if_neg, if_false]
    norm_num [min_eq_right hceil]
  · intro hturns hle
    have hne : (turns : ℚ) ≠ 0 := by
      exact_mod_cast Nat.one_le_iff_ne_zero.mp hturns
    have hturns0 : ¬turns = 0 := Nat.one_le_iff_ne_zero.mp hturns
    simp only [computeAvgHistoryTokens, hcap', htpe', hturns0, if_neg, if_false,
      false_or, min_eq_right hle]
    push_cast
    rw [max_eq_left (by linarith [le_refl (turns : ℚ)] : (turns : ℚ) - (turns : ℚ) ≤ 0)]
    field_simp
    ring

/-- C4 witness: the amended statement instantiated at cap 10000, output
400 (tokensPerExchange 500) and 5 turns, where the ramp never completes. -/
theorem c4_avgHistory_amended_witness :
    (0 : ℚ) < 10000 ∧ 0 < computeTokensPerExchange 400 ∧
    (1 ≤ 5 ∧ (5 : ℤ) ≤ ⌈(10000 : ℚ) / (computeTokensPerExchange 400 : ℚ)⌉) ∧
    computeAvgHistoryTokens 10000 1 400 = 0 ∧
    computeAvgHistoryTokens 10000 5 400
      = (computeTokensPerExchange 400 : ℚ) * ((5 : ℚ) - 1) / 2 :=
  ⟨by norm_num, by norm_num [computeTokensPerExchange, round_eq],
   ⟨by norm_num, by norm_num [computeTokensPerExchange, round_eq]⟩,
   (c4_avgHistory_amended 10000 400 5 (by norm_num)
     (by norm_num [computeTokensPerExchange, round_eq])).1,
   (c4_avgHistory_amended 10000 400 5 (by norm_num)
     (by norm_num [computeTokensPerExchange, round_eq])).2 (by norm_num)
     (by norm_num [computeTokensPerExchange, round_eq])⟩

/-- The simulation trace starts with the incoming history value. -/
theorem simRun_head (tpe : ℤ) (cap ss : ℚ) (reqs fuel t : ℕ) (h : ℚ)
    (hf : fuel ≠ 0) : (simRun tpe cap ss reqs fuel t h).1.head? = some h := by
  cases fuel with
  | zero => exact absurd rfl hf
  | succ n =>
    simp only [simRun]
    split <;> rfl

/-- Every recorded history value stays below the cap, as long as the
summary size is below the cap and the loop is entered with history below
the cap and runs no further than the final turn. -/
theorem simRun_trace_lt (tpe : ℤ) (cap ss : ℚ) (reqs : ℕ) (hss : ss < cap) :
    ∀ (fuel t : ℕ) (h : ℚ), t + fuel ≤ reqs + 1 → h < cap →
      ∀ x ∈ (simRun tpe cap ss reqs fuel t h).1, x < cap := by
  intro fuel
  induction fuel with
  | zero =>
    intro t h _ _ x hx
    simp [simRun] at hx
  | succ n ih =>
    intro t h hle hh x hx
    by_cases hcond : cap ≤ h + (tpe : ℚ) ∧ t < reqs
    · simp only [simRun, if_pos hcond, List.mem_cons] at hx
      rcases hx with rfl | hx'
      · exact hh
      · exact ih (t + 1) ss (by omega) hss x hx'
    · simp only [simRun, if_neg hcond, List.mem_cons] at hx
      rcases hx with rfl | hx'
      · exact hh
      · by_cases hlt : h + (tpe : ℚ) < cap
        · exact ih (t + 1) _ (by omega) hlt x hx'
        · have ht : ¬t < reqs := fun hc => hcond ⟨not_lt.mp hlt, hc⟩
          have hn : n = 0 := by omega
          subst hn
          simp [simRun] at hx'

/-- Recorded history values and their running total are non-negative. -/
theorem simRun_nonneg (tpe : ℤ) (cap ss : ℚ) (reqs : ℕ)
    (htpe : 0 ≤ tpe) (hss : 0 ≤ ss) :
    ∀ (fuel t : ℕ) (h : ℚ), 0 ≤ h →
      (∀ x ∈ (simRun tpe cap ss reqs fuel t h).1, 0 ≤ x) ∧
        0 ≤ (simRun tpe cap ss reqs fuel t h).2.2 := by
  intro fuel
  induction fuel with
  | zero =>
    intro t h hh
    constructor
    · intro x hx; simp [simRun] at hx
    · simp [simRun]
  | succ n ih =>
    intro t h hh
    have hadv : (0 : ℚ) ≤ h + (tpe : ℚ) := by
      have : (0 : ℚ) ≤ (tpe : ℚ) := by exact_mod_cast htpe
      linarith
    by_cases hcond : cap ≤ h + (tpe : ℚ) ∧ t < reqs
    · obtain ⟨ihTrace, ihTotal⟩ := ih (t + 1) ss hss
      constructor
      · intro x hx
        simp only [simRun, if_pos hcond, List.mem_cons] at hx
        rcases hx with rfl | hx'
        · exact hh
        · exact ihTrace x hx'
      · simp only [simRun, if_pos hcond]
        exact add_nonneg hh ihTotal
    · obtain ⟨ihTrace, ihTotal⟩ := ih (t + 1) (h + (tpe : ℚ)) hadv
      constructor
      · intro x hx
        simp only [simRun, if_neg hcond, List.mem_cons] at hx
        rcases hx with rfl | hx'
        · exact hh
        · exact ihTrace x hx'
      · simp only [simRun, if_neg hcond]
        exact add_nonneg hh ihTotal

/-- C5: with at least one turn, a positive cap, positive tokensPerExchange
and a summary size in [0, cap), the simulation trace starts at 0, every
recorded history value is below cap + tokensPerExchange, and
numSummarizations equals the length of summarizationTurns. -/
theorem c5_simulateSummarization_invariants (reqs : ℕ) (cap out ss : ℚ)
    (h1 : 1 ≤ reqs) (h2 : 0 < cap) (h3 : 0 < computeTokensPerExchange out)
    (h4 : 0 ≤ ss) (h5 : ss < cap) :
    (simulateSummarization reqs cap out ss).historyPerTurn.head? = some 0 ∧
    (∀ x ∈ (simulateSummarization reqs cap out ss).historyPerTurn,
      x < cap + (computeTokensPerExchange out : ℚ)) ∧
    (simulateSummarization reqs cap out ss).numSummarizations
      = (simulateSummarization reqs cap out ss).summarizationTurns.length := by
  have hcond : ¬(computeTokensPerExchange out ≤ 0 ∨ reqs = 0 ∨ cap ≤ 0) := by
    push_neg
    exact ⟨h3, Nat.one_le_iff_ne_zero.mp h1, h2⟩
  simp only [simulateSummarization, if_neg hcond]
  refine ⟨simRun_head _ _ _ _ _ _ _ (by omega), ?_, trivial⟩
  intro x hx
  have hxlt := simRun_trace_lt (computeTokensPerExchange out) cap ss reqs h5
    reqs 1 0 (by omega) h2 x hx
  have htpe : (0 : ℚ) < (computeTokensPerExchange out : ℚ) := by exact_mod_cast h3
  linarith

/-- C5 witness: the invariants at 5 turns, cap 1000, output 400 and
summary size 200. -/
theorem c5_witness :
    (1 ≤ 5 ∧ (0 : ℚ) < 1000 ∧ 0 < computeTokensPerExchange 400 ∧
      (0 : ℚ) ≤ 200 ∧ (200 : ℚ) < 1000) ∧
    (simulateSummarization 5 1000 400 200).historyPerTurn.head? = some 0 ∧
    (∀ x ∈ (simulateSummarization 5 1000 400 200).historyPerTurn,
      x < 1000 + (computeTokensPerExchange 400 : ℚ)) ∧
    (simulateSummarization 5 1000 400 200).numSummarizations
      = (simulateSummarization 5 1000 400 200).summarizationTurns.length :=
  ⟨⟨by norm_num, by norm_num, by norm_num [computeTokensPerExchange, round_eq],
    by norm_num, by norm_num⟩,
   c5_simulateSummarization_invariants 5 1000 400 200 (by norm_num) (by norm_num)
     (by norm_num [computeTokensPerExchange, round_eq]) (by norm_num) (by norm_num)⟩

/-- C6 counterexample: with no shared prefix (sysTokens = ctxTokens = 0)
Strategy A never caches anything and its total equals No-Caching's total
at every request count, so no finite threshold can make it strictly
cheaper, even though cacheReadPrice < inputPrice. -/
theorem c6_counterexample :
    ¬ ∃ T : ℚ, ∀ students reqs : ℕ, 1 ≤ students → 1 ≤ reqs →
      T < ((students * reqs : ℕ) : ℚ) →
      (computeStrategyA anthModel students reqs 0 0 5 5 5 1 CacheTTL.fiveMin).total
        < (computeNoCaching anthModel students reqs 0 0 5 5 5 1).total := by
  rintro ⟨T, hT⟩
  have heq : ∀ students reqs : ℕ,
      (computeStrategyA anthModel students reqs 0 0 5 5 5 1 CacheTTL.fiveMin).total
        = (computeNoCaching anthModel students reqs 0 0 5 5 5 1).total := by
    intro students reqs
    simp only [computeStrategyA, computeNoCaching, anthModel, getCacheWritePrice]
    ring
  set n : ℕ := ⌈T⌉.toNat + 1 with hn
  have hTn : T < ((n * 1 : ℕ) : ℚ) := by
    have h1 : T ≤ (⌈T⌉ : ℚ) := Int.le_ceil T
    have h2 : (⌈T⌉ : ℚ) ≤ (⌈T⌉.toNat : ℚ) := by exact_mod_cast Int.self_le_toNat ⌈T⌉
    have h3 : ((n * 1 : ℕ) : ℚ) = (⌈T⌉.toNat : ℚ) + 1 := by
      simp [hn]
    rw [h3]
    linarith
  exact absurd (heq n 1) (ne_of_lt (hT n 1 (by omega) (by omega) hTn))

/-- C6 (amended): for any workload with a non-empty shared prefix
(sysTokens + ctxTokens > 0), a positive tier multiplier and
cacheReadPrice < inputPrice, there is a finite threshold beyond which
Strategy A's total is strictly below No-Caching's total. -/
theorem c6_strategyA_eventually_cheaper (m : BedrockModel)
    (sys ctx sub inst out tier : ℚ) (ttl : CacheTTL)
    (hread : m.pricing.cache_read_1k.getD 0 < m.pricing.input_1k)
    (htier : 0 < tier) (hD : 0 < sys + ctx) :
    ∃ T : ℚ, ∀ students reqs : ℕ, 1 ≤ students → 1 ≤ reqs →
      T < ((students * reqs : ℕ) : ℚ) →
      (computeStrategyA m students reqs sys ctx sub inst out tier ttl).total
        < (computeNoCaching m students reqs sys ctx sub inst out tier).total := by
  set pin := m.pricing.input_1k with hpin
  set prd := m.pricing.cache_read_1k.getD 0 with hprd
  set w := getCacheWritePrice m ttl with hw
  refine ⟨(w - prd) / (pin - prd), ?_⟩
  intro students reqs _ _ hR
  set R : ℚ := ((students * reqs : ℕ) : ℚ) with hRdef
  have hdiff : (computeNoCaching m students reqs sys ctx sub inst out tier).total
      - (computeStrategyA m students reqs sys ctx sub inst out tier ttl).total
      = (sys + ctx) / 1000 * tier * (R * (pin - prd) - (w - prd)) := by
    simp only [computeNoCaching, computeStrategyA, ← hpin, ← hprd, ← hw, ← hRdef]
    ring
  have hpos : 0 < R * (pin - prd) - (w - prd) := by
    have hgap : 0 < pin - prd := sub_pos.mpr hread
    have : (w - prd) / (pin - prd) * (pin - prd) < R * (pin - prd) :=
      mul_lt_mul_of_pos_right hR hgap
    rw [div_mul_cancel₀ _ (ne_of_gt hgap)] at this
    linarith
  have : 0 < (computeNoCaching m students reqs sys ctx sub inst out tier).total
      - (computeStrategyA m students reqs sys ctx sub inst out tier ttl).total := by
    rw [hdiff]
    have h1 : 0 < (sys + ctx) / 1000 := by positivity
    positivity
  linarith

/-- C6 witness: the amended statement instantiated at the Anthropic-like
price list with a 1000-token shared prefix. -/
theorem c6_witness :
    (anthModel.pricing.cache_read_1k.getD 0 < anthModel.pricing.input_1k ∧
      (0 : ℚ) < 1 ∧ (0 : ℚ) < 1000 + 500) ∧
    ∃ T : ℚ, ∀ students reqs : ℕ, 1 ≤ students → 1 ≤ reqs →
      T < ((students * reqs : ℕ) : ℚ) →
      (computeStrategyA anthModel students reqs 1000 500 200 100 50 1
        CacheTTL.fiveMin).total
        < (computeNoCaching anthModel students reqs 1000 500 200 100 50 1).total :=
  ⟨⟨by norm_num [anthModel], by norm_num, by norm_num⟩,
   c6_strategyA_eventually_cheaper anthModel 1000 500 200 100 50 1
     CacheTTL.fiveMin (by norm_num [anthModel]) (by norm_num) (by norm_num)⟩

/-- An optional price with non-negative 0-default is non-negative under
any non-negative default. -/
theorem opt_getD_nonneg {o : Option ℚ} {d : ℚ} (h0 : 0 ≤ o.getD 0)
    (hd : 0 ≤ d) : 0 ≤ o.getD d := by
  cases o with
  | none => simpa using hd
  | some a => simpa using h0

/-- The selected cache-write price is non-negative for a non-negative
price list. -/
theorem getCacheWritePrice_nonneg (m : BedrockModel) (ttl : CacheTTL)
    (hm : m.pricing.NonNeg) : 0 ≤ getCacheWritePrice m ttl := by
  obtain ⟨-, -, hw, hw1, -, -, -⟩ := hm
  cases ttl with
  | fiveMin => simpa [getCacheWritePrice] using hw
  | oneHour =>
    cases h1h : m.pricing.cache_write_1hour_1k with
    | none => simpa [getCacheWritePrice, h1h] using hw
    | some w =>
      rw [h1h] at hw1
      simpa [getCacheWritePrice, h1h] using hw1

/-- Indexing with default 0 into a list of non-negative values is
non-negative. -/
theorem getD_zero_nonneg {l : List ℚ} (h : ∀ x ∈ l, 0 ≤ x) (i : ℕ) :
    0 ≤ l.getD i 0 := by
  induction l generalizing i with
  | nil => simp [List.getD]
  | cons a l ih =>
    cases i with
    | zero => simpa using h a (List.mem_cons_self a l)
    | succ j =>
      simpa using ih (fun x hx => h x (List.mem_cons_of_mem a hx)) j

/-- Every value of the summarization trace is non-negative for a
non-negative summary size. -/
theorem sim_trace_nonneg (reqs : ℕ) (cap out ss : ℚ) (hss : 0 ≤ ss) :
    ∀ x ∈ (simulateSummarization reqs cap out ss).historyPerTurn, 0 ≤ x := by
  by_cases hcond : computeTokensPerExchange out ≤ 0 ∨ reqs = 0 ∨ cap ≤ 0
  · simp [simulateSummarization, hcond]
  · simp only [simulateSummarization, if_neg hcond]
    have htpe : 0 ≤ computeTokensPerExchange out := by
      push_neg at hcond
      exact le_of_lt hcond.1
    exact (simRun_nonneg (computeTokensPerExchange out) cap ss reqs htpe hss
      reqs 1 0 le_rfl).1

/-- The total history token count of the simulation is non-negative. -/
theorem sim_total_nonneg (reqs : ℕ) (cap out ss : ℚ) (hss : 0 ≤ ss) :
    0 ≤ (simulateSummarization reqs cap out ss).totalHistoryTokensSent := by
  by_cases hcond : computeTokensPerExchange out ≤ 0 ∨ reqs = 0 ∨ cap ≤ 0
  · simp [simulateSummarization, hcond]
  · simp only [simulateSummarization, if_neg hcond]
    have htpe : 0 ≤ computeTokensPerExchange out := by
      push_neg at hcond
      exact le_of_lt hcond.1
    exact (simRun_nonneg (computeTokensPerExchange out) cap ss reqs htpe hss
      reqs 1 0 le_rfl).2

/-- All three per-student accumulators of the cache-in-summary loop are
non-negative under non-negative tokens, prices and trace values. -/
theorem cssRun_nonneg (sim : SummarizationSim)
    (basePfx fullPfx ss sub pW pRd pIn : ℚ)
    (hb : 0 ≤ basePfx) (hf : 0 ≤ fullPfx) (hsub : 0 ≤ sub)
    (hpW : 0 ≤ pW) (hpRd : 0 ≤ pRd) (hpIn : 0 ≤ pIn)
    (htrace : ∀ x ∈ sim.historyPerTurn, 0 ≤ x) :
    ∀ (fuel t : ℕ) (hs : Bool),
      0 ≤ (cssRun sim basePfx fullPfx ss sub pW pRd pIn fuel t hs).1 ∧
      0 ≤ (cssRun sim basePfx fullPfx ss sub pW pRd pIn fuel t hs).2.1 ∧
      0 ≤ (cssRun sim basePfx fullPfx ss sub pW pRd pIn fuel t hs).2.2 := by
  intro fuel
  induction fuel with
  | zero => intro t hs; simp [cssRun]
  | succ n ih =>
    intro t hs
    have hh : 0 ≤ sim.historyPerTurn.getD (t - 1) 0 := getD_zero_nonneg htrace _
    have hpfx : ∀ b : Bool, 0 ≤ (if b then fullPfx else basePfx) := by
      intro b; cases b <;> simpa
    obtain ⟨ih1, ih2, ih3⟩ := ih (t + 1)
      (if 1 < t ∧ (t - 1) ∈ sim.summarizationTurns then true else hs)
    simp only [cssRun]
    refine ⟨add_nonneg ?_ ih1, add_nonneg ?_ ih2, add_nonneg ?_ ih3⟩
    · split_ifs with h1 h2 h2 <;>
        first
          | exact mul_nonneg (div_nonneg (by assumption) (by norm_num)) hpW
          | norm_num
    · split_ifs with h1 h2 h2 <;>
        first
          | exact mul_nonneg (div_nonneg (by assumption) (by norm_num)) hpRd
          | norm_num
    · have hfh : 0 ≤ (if (if 1 < t ∧ (t - 1) ∈ sim.summarizationTurns then true else hs)
          then max 0 (sim.historyPerTurn.getD (t - 1) 0 - ss)
          else sim.historyPerTurn.getD (t - 1) 0) := by
        split_ifs <;> first | exact le_sup_left | exact hh
      exact mul_nonneg (div_nonneg (by linarith) (by norm_num)) hpIn

/-- The per-student cacheWrite accumulator is at least the turn-1 write of
the shared assessment prefix. -/
theorem cssRun_fst_ge (sim : SummarizationSim)
    (basePfx fullPfx ss sub pW pRd pIn : ℚ)
    (hb : 0 ≤ basePfx) (hf : 0 ≤ fullPfx) (hsub : 0 ≤ sub)
    (hpW : 0 ≤ pW) (hpRd : 0 ≤ pRd) (hpIn : 0 ≤ pIn)
    (htrace : ∀ x ∈ sim.historyPerTurn, 0 ≤ x) (fuel : ℕ) :
    basePfx / 1000 * pW
      ≤ (cssRun sim basePfx fullPfx ss sub pW pRd pIn (fuel + 1) 1 false).1 := by
  have hnot : ¬(1 < 1 ∧ (1 - 1) ∈ sim.summarizationTurns) := by simp
  have hrest := (cssRun_nonneg sim basePfx fullPfx ss sub pW pRd pIn
    hb hf hsub hpW hpRd hpIn htrace fuel 2 false).1
  simp only [cssRun, if_neg hnot]
  norm_num
  linarith [hrest]

/-- Products of the shape count x (tokens/1000) x price are non-negative. -/
theorem term_nonneg {a b c : ℚ} (ha : 0 ≤ a) (hb : 0 ≤ b) (hc : 0 ≤ c) :
    0 ≤ a * (b / 1000) * c :=
  mul_nonneg (mul_nonneg ha (div_nonneg hb (by norm_num))) hc

/-- No-caching breakdowns have non-negative fields. -/
theorem computeNoCaching_nonneg (m : BedrockModel) (students reqs : ℕ)
    (sys ctx sub inst out tier : ℚ) (hm : m.pricing.NonNeg)
    (hsys : 0 ≤ sys) (hctx : 0 ≤ ctx) (hsub : 0 ≤ sub) (hinst : 0 ≤ inst)
    (hout : 0 ≤ out) (htier : 0 ≤ tier) :
    (computeNoCaching m students reqs sys ctx sub inst out tier).NonNegFields := by
  obtain ⟨hin, hoU, -, -, -, -, -⟩ := hm
  have hR0 : (0 : ℚ) ≤ ((students * reqs : ℕ) : ℚ) := by positivity
  have hfresh : 0 ≤ ((students * reqs : ℕ) : ℚ) * ((sys + ctx + sub + inst) / 1000)
      * (m.pricing.input_1k * tier) :=
    term_nonneg hR0 (by linarith) (mul_nonneg hin htier)
  have houtc : 0 ≤ ((students * reqs : ℕ) : ℚ) * (out / 1000)
      * (m.pricing.output_1k * tier) :=
    term_nonneg hR0 hout (mul_nonneg hoU htier)
  exact ⟨le_refl 0, le_refl 0, hfresh, houtc, le_refl 0, add_nonneg hfresh houtc⟩

/-- Batch breakdowns have non-negative fields. -/
theorem computeBatch_nonneg (m : BedrockModel) (students reqs : ℕ)
    (sys ctx sub inst out tier : ℚ) (hm : m.pricing.NonNeg)
    (hsys : 0 ≤ sys) (hctx : 0 ≤ ctx) (hsub : 0 ≤ sub) (hinst : 0 ≤ inst)
    (hout : 0 ≤ out) (htier : 0 ≤ tier) :
    (computeBatch m students reqs sys ctx sub inst out tier).NonNegFields := by
  obtain ⟨hin, hoU, -, -, -, hbi, hbo⟩ := hm
  have hR0 : (0 : ℚ) ≤ ((students * reqs : ℕ) : ℚ) := by positivity
  have hfresh : 0 ≤ ((students * reqs : ℕ) : ℚ) * ((sys + ctx + sub + inst) / 1000)
      * (m.pricing.batch_input_1k.getD m.pricing.input_1k * tier) :=
    term_nonneg hR0 (by linarith) (mul_nonneg (opt_getD_nonneg hbi hin) htier)
  have houtc : 0 ≤ ((students * reqs : ℕ) : ℚ) * (out / 1000)
      * (m.pricing.batch_output_1k.getD m.pricing.output_1k * tier) :=
    term_nonneg hR0 hout (mul_nonneg (opt_getD_nonneg hbo hoU) htier)
  exact ⟨le_refl 0, le_refl 0, hfresh, houtc, le_refl 0, add_nonneg hfresh houtc⟩

/-- Strategy A breakdowns have non-negative fields once there is at least
one request. -/
theorem computeStrategyA_nonneg (m : BedrockModel) (students reqs : ℕ)
    (sys ctx sub inst out tier : ℚ) (ttl : CacheTTL) (hm : m.pricing.NonNeg)
    (hsys : 0 ≤ sys) (hctx : 0 ≤ ctx) (hsub : 0 ≤ sub) (hinst : 0 ≤ inst)
    (hout : 0 ≤ out) (htier : 0 ≤ tier)
    (hstud : 1 ≤ students) (hreqs : 1 ≤ reqs) :
    (computeStrategyA m students reqs sys ctx sub inst out tier ttl).NonNegFields := by
  have hpW : 0 ≤ getCacheWritePrice m ttl * tier :=
    mul_nonneg (getCacheWritePrice_nonneg m ttl hm) htier
  obtain ⟨hin, hoU, -, -, hcr, -, -⟩ := hm
  have hR1 : (1 : ℚ) ≤ ((students * reqs : ℕ) : ℚ) := by
    exact_mod_cast Nat.one_le_iff_ne_zero.mpr
      (Nat.mul_ne_zero (by omega) (by omega))
  have hcw : 0 ≤ (sys + ctx) / 1000 * (getCacheWritePrice m ttl * tier) :=
    mul_nonneg (div_nonneg (by linarith) (by norm_num)) hpW
  have hcrd : 0 ≤ (((students * reqs : ℕ) : ℚ) - 1) * ((sys + ctx) / 1000)
      * (m.pricing.cache_read_1k.getD 0 * tier) :=
    term_nonneg (by linarith) (by linarith) (mul_nonneg hcr htier)
  have hfresh : 0 ≤ ((students * reqs : ℕ) : ℚ) * ((sub + inst) / 1000)
      * (m.pricing.input_1k * tier) :=
    term_nonneg (by linarith) (by linarith) (mul_nonneg hin htier)
  have houtc : 0 ≤ ((students * reqs : ℕ) : ℚ) * (out / 1000)
      * (m.pricing.output_1k * tier) :=
    term_nonneg (by linarith) hout (mul_nonneg hoU htier)
  exact ⟨hcw, hcrd, hfresh, houtc, le_refl 0,
    add_nonneg (add_nonneg (add_nonneg hcw hcrd) hfresh) houtc⟩

/-- Strategy B breakdowns have non-negative fields once every student
makes at least one request. -/
theorem computeStrategyB_nonneg (m : BedrockModel) (students reqs : ℕ)
    (sys ctx sub inst out tier : ℚ) (sc : Bool) (ttl : CacheTTL)
    (hm : m.pricing.NonNeg)
    (hsys : 0 ≤ sys) (hctx : 0 ≤ ctx) (hsub : 0 ≤ sub) (hinst : 0 ≤ inst)
    (hout : 0 ≤ out) (htier : 0 ≤ tier)
    (hstud : 1 ≤ students) (hreqs : 1 ≤ reqs) :
    (computeStrategyB m students reqs sys ctx sub inst out tier sc ttl).NonNegFields := by
  have hpW : 0 ≤ getCacheWritePrice m ttl * tier :=
    mul_nonneg (getCacheWritePrice_nonneg m ttl hm) htier
  obtain ⟨hin, hoU, -, -, hcr, -, -⟩ := hm
  have hR1 : (1 : ℚ) ≤ ((students * reqs : ℕ) : ℚ) := by
    exact_mod_cast Nat.one_le_iff_ne_zero.mpr
      (Nat.mul_ne_zero (by omega) (by omega))
  have hstudQ : (1 : ℚ) ≤ (students : ℚ) := by exact_mod_cast hstud
  have hreqsQ : (1 : ℚ) ≤ (reqs : ℚ) := by exact_mod_cast hreqs
  have hfresh : 0 ≤ ((students * reqs : ℕ) : ℚ) * (inst / 1000)
      * (m.pricing.input_1k * tier) :=
    term_nonneg (by linarith) hinst (mul_nonneg hin htier)
  have houtc : 0 ≤ ((students * reqs : ℕ) : ℚ) * (out / 1000)
      * (m.pricing.output_1k * tier) :=
    term_nonneg (by linarith) hout (mul_nonneg hoU htier)
  cases sc with
  | true =>
    have hcw : 0 ≤ (students : ℚ) * ((sys + ctx + sub) / 1000)
        * (getCacheWritePrice m ttl * tier) :=
      term_nonneg (by linarith) (by linarith) hpW
    have hcrd : 0 ≤ (students : ℚ) * ((reqs : ℚ) - 1) * ((sys + ctx + sub) / 1000)
        * (m.pricing.cache_read_1k.getD 0 * tier) :=
      mul_nonneg (mul_nonneg (mul_nonneg (by linarith) (by linarith))
        (div_nonneg (by linarith) (by norm_num))) (mul_nonneg hcr htier)
    refine ⟨?_, ?_, ?_, ?_, le_refl 0, ?_⟩ <;>
      simp only [computeStrategyB, eq_self_iff_true, if_true] <;>
      linarith
  | false =>
    have hfalse : ¬((false : Bool) = true) := by simp
    have hcw : 0 ≤ (sys + ctx) / 1000 * (getCacheWritePrice m ttl * tier)
        + ((students * reqs : ℕ) : ℚ) * (sub / 1000)
          * (getCacheWritePrice m ttl * tier) :=
      add_nonneg (mul_nonneg (div_nonneg (by linarith) (by norm_num)) hpW)
        (term_nonneg (by linarith) hsub hpW)
    have hcrd : 0 ≤ (((students * reqs : ℕ) : ℚ) - 1) * ((sys + ctx) / 1000)
        * (m.pricing.cache_read_1k.getD 0 * tier) :=
      term_nonneg (by linarith) (by linarith) (mul_nonneg hcr htier)
    refine ⟨?_, ?_, ?_, ?_, le_refl 0, ?_⟩ <;>
      simp only [computeStrategyB, if_neg hfalse] <;>
      linarith

/-- Summarization-without-caching breakdowns have non-negative fields. -/
theorem computeSumNoCaching_nonneg (m : BedrockModel) (students reqs : ℕ)
    (sys ctx sub inst out ss tier : ℚ) (hm : m.pricing.NonNeg)
    (hsys : 0 ≤ sys) (hctx : 0 ≤ ctx) (hsub : 0 ≤ sub) (hinst : 0 ≤ inst)
    (hout : 0 ≤ out) (hss : 0 ≤ ss) (htier : 0 ≤ tier) :
    (computeSumNoCaching m students reqs sys ctx sub inst out ss
      tier).toCostBreakdown.NonNegFields := by
  obtain ⟨hin, hoU, -, -, -, -, -⟩ := hm
  have hR0 : (0 : ℚ) ≤ ((students * reqs : ℕ) : ℚ) := by positivity
  have hstud0 : (0 : ℚ) ≤ (students : ℚ) := by positivity
  have hsimT := sim_total_nonneg reqs inst out ss hss
  have hfresh : 0 ≤ ((students * reqs : ℕ) : ℚ) * ((sys + ctx + sub) / 1000)
      * (m.pricing.input_1k * tier)
      + (students : ℚ)
        * ((simulateSummarization reqs inst out ss).totalHistoryTokensSent / 1000)
        * (m.pricing.input_1k * tier) :=
    add_nonneg (term_nonneg hR0 (by linarith) (mul_nonneg hin htier))
      (term_nonneg hstud0 hsimT (mul_nonneg hin htier))
  have houtc : 0 ≤ ((students * reqs : ℕ) : ℚ) * (out / 1000)
      * (m.pricing.output_1k * tier) :=
    term_nonneg hR0 hout (mul_nonneg hoU htier)
  have hsum : 0 ≤ (students : ℚ)
      * ((simulateSummarization reqs inst out ss).numSummarizations : ℚ)
      * ((sys + inst) / 1000 * (m.pricing.input_1k * tier)
        + ss / 1000 * (m.pricing.output_1k * tier)) :=
    mul_nonneg (mul_nonneg hstud0 (Nat.cast_nonneg _))
      (add_nonneg (mul_nonneg (div_nonneg (by linarith) (by norm_num))
          (mul_nonneg hin htier))
        (mul_nonneg (div_nonneg hss (by norm_num)) (mul_nonneg hoU htier)))
  exact ⟨le_refl 0, le_refl 0, hfresh, houtc, le_refl 0,
    add_nonneg (add_nonneg hfresh houtc) hsum⟩

/-- Summarization-with-assessment-prefix-caching breakdowns have
non-negative fields once there is at least one request. -/
theorem computeSumCacheAssessment_nonneg (m : BedrockModel) (students reqs : ℕ)
    (sys ctx sub inst out ss tier : ℚ) (ttl : CacheTTL) (hm : m.pricing.NonNeg)
    (hsys : 0 ≤ sys) (hctx : 0 ≤ ctx) (hsub : 0 ≤ sub) (hinst : 0 ≤ inst)
    (hout : 0 ≤ out) (hss : 0 ≤ ss) (htier : 0 ≤ tier)
    (hstud : 1 ≤ students) (hreqs : 1 ≤ reqs) :
    (computeSumCacheAssessment m students reqs sys ctx sub inst out ss tier
      ttl).toCostBreakdown.NonNegFields := by
  have hpW : 0 ≤ getCacheWritePrice m ttl * tier :=
    mul_nonneg (getCacheWritePrice_nonneg m ttl hm) htier
  obtain ⟨hin, hoU, -, -, hcr, -, -⟩ := hm
  have hR1 : (1 : ℚ) ≤ ((students * reqs : ℕ) : ℚ) := by
    exact_mod_cast Nat.one_le_iff_ne_zero.mpr
      (Nat.mul_ne_zero (by omega) (by omega))
  have hstud0 : (0 : ℚ) ≤ (students : ℚ) := by positivity
  have hsimT := sim_total_nonneg reqs inst out ss hss
  have hcw : 0 ≤ (sys + ctx) / 1000 * (getCacheWritePrice m ttl * tier) :=
    mul_nonneg (div_nonneg (by linarith) (by norm_num)) hpW
  have hcrd : 0 ≤ (((students * reqs : ℕ) : ℚ) - 1) * ((sys + ctx) / 1000)
      * (m.pricing.cache_read_1k.getD 0 * tier) :=
    term_nonneg (by linarith) (by linarith) (mul_nonneg hcr htier)
  have hfresh : 0 ≤ (students : ℚ)
      * ((simulateSummarization reqs inst out ss).totalHistoryTokensSent / 1000)
      * (m.pricing.input_1k * tier)
      + ((students * reqs : ℕ) : ℚ) * (sub / 1000) * (m.pricing.input_1k * tier) :=
    add_nonneg (term_nonneg hstud0 hsimT (mul_nonneg hin htier))
      (term_nonneg (by linarith) hsub (mul_nonneg hin htier))
  have houtc : 0 ≤ ((students * reqs : ℕ) : ℚ) * (out / 1000)
      * (m.pricing.output_1k * tier) :=
    term_nonneg (by linarith) hout (mul_nonneg hoU htier)
  have hsum : 0 ≤ (students : ℚ)
      * ((simulateSummarization reqs inst out ss).numSummarizations : ℚ)
      * ((sys + inst) / 1000 * (m.pricing.input_1k * tier)
        + ss / 1000 * (m.pricing.output_1k * tier)) :=
    mul_nonneg (mul_nonneg hstud0 (Nat.cast_nonneg _))
      (add_nonneg (mul_nonneg (div_nonneg (by linarith) (by norm_num))
          (mul_nonneg hin htier))
        (mul_nonneg (div_nonneg hss (by norm_num)) (mul_nonneg hoU htier)))
  exact ⟨hcw, hcrd, hfresh, houtc, le_refl 0,
    add_nonneg (add_nonneg (add_nonneg (add_nonneg hcw hcrd) hfresh) houtc) hsum⟩

/-- Summarization-with-summary-in-prefix breakdowns have non-negative
fields: the shared-prefix write correction never exceeds the summed
per-student writes, because every student pays at least the turn-1 write
of the shared prefix. -/
theorem computeSumCacheSummary_nonneg (m : BedrockModel) (students reqs : ℕ)
    (sys ctx sub inst out ss tier : ℚ) (ttl : CacheTTL) (hm : m.pricing.NonNeg)
    (hsys : 0 ≤ sys) (hctx : 0 ≤ ctx) (hsub : 0 ≤ sub) (hinst : 0 ≤ inst)
    (hout : 0 ≤ out) (hss : 0 ≤ ss) (htier : 0 ≤ tier)
    (hstud : 1 ≤ students) (hreqs : 1 ≤ reqs) :
    (computeSumCacheSummary m students reqs sys ctx sub inst out ss tier
      ttl).toCostBreakdown.NonNegFields := by
  obtain ⟨n, rfl⟩ : ∃ n, reqs = n + 1 := ⟨reqs - 1, by omega⟩
  have hpW : 0 ≤ getCacheWritePrice m ttl * tier :=
    mul_nonneg (getCacheWritePrice_nonneg m ttl hm) htier
  obtain ⟨hin, hoU, -, -, hcr, -, -⟩ := hm
  have hpRd : 0 ≤ m.pricing.cache_read_1k.getD 0 * tier := mul_nonneg hcr htier
  have hpIn : 0 ≤ m.pricing.input_1k * tier := mul_nonneg hin htier
  have hstud0 : (0 : ℚ) ≤ (students : ℚ) := by positivity
  have hstudQ : (1 : ℚ) ≤ (students : ℚ) := by exact_mod_cast hstud
  have hR0 : (0 : ℚ) ≤ ((students * (n + 1) : ℕ) : ℚ) := by positivity
  have htr := sim_trace_nonneg (n + 1) inst out ss hss
  have hcss := cssRun_nonneg (simulateSummarization (n + 1) inst out ss)
    (sys + ctx) (sys + ctx + ss) ss sub (getCacheWritePrice m ttl * tier)
    (m.pricing.cache_read_1k.getD 0 * tier) (m.pricing.input_1k * tier)
    (by linarith) (by linarith) hsub hpW hpRd hpIn htr (n + 1) 1 false
  have hfirst := cssRun_fst_ge (simulateSummarization (n + 1) inst out ss)
    (sys + ctx) (sys + ctx + ss) ss sub (getCacheWritePrice m ttl * tier)
    (m.pricing.cache_read_1k.getD 0 * tier) (m.pricing.input_1k * tier)
    (by linarith) (by linarith) hsub hpW hpRd hpIn htr n
  have haw : 0 ≤ (sys + ctx) / 1000 * (getCacheWritePrice m ttl * tier) :=
    mul_nonneg (div_nonneg (by linarith) (by norm_num)) hpW
  have hmul : (students : ℚ)
      * ((sys + ctx) / 1000 * (getCacheWritePrice m ttl * tier))
      ≤ (students : ℚ)
        * (cssRun (simulateSummarization (n + 1) inst out ss) (sys + ctx)
            (sys + ctx + ss) ss sub (getCacheWritePrice m ttl * tier)
            (m.pricing.cache_read_1k.getD 0 * tier) (m.pricing.input_1k * tier)
            (n + 1) 1 false).1 :=
    mul_le_mul_of_nonneg_left hfirst hstud0
  have hcw : 0 ≤ (students : ℚ)
      * (cssRun (simulateSummarization (n + 1) inst out ss) (sys + ctx)
          (sys + ctx + ss) ss sub (getCacheWritePrice m ttl * tier)
          (m.pricing.cache_read_1k.getD 0 * tier) (m.pricing.input_1k * tier)
          (n + 1) 1 false).1
      - (if 1 < students then ((students : ℚ) - 1) * ((sys + ctx) / 1000)
          * (getCacheWritePrice m ttl * tier) else 0) := by
    by_cases hst : 1 < students
    · rw [if_pos hst]
      nlinarith [hmul, haw]
    · rw [if_neg hst]
      have := mul_nonneg hstud0 hcss.1
      linarith
  have hcrd : 0 ≤ (students : ℚ)
      * (cssRun (simulateSummarization (n + 1) inst out ss) (sys + ctx)
          (sys + ctx + ss) ss sub (getCacheWritePrice m ttl * tier)
          (m.pricing.cache_read_1k.getD 0 * tier) (m.pricing.input_1k * tier)
          (n + 1) 1 false).2.1
      + (if 1 < students then ((students : ℚ) - 1) * ((sys + ctx) / 1000)
          * (m.pricing.cache_read_1k.getD 0 * tier) else 0) := by
    refine add_nonneg (mul_nonneg hstud0 hcss.2.1) ?_
    by_cases hst : 1 < students
    · rw [if_pos hst]
      have h2 : (1 : ℚ) < (students : ℚ) := by exact_mod_cast hst
      exact term_nonneg (by linarith) (by linarith) hpRd
    · rw [if_neg hst]
  have hfresh : 0 ≤ (students : ℚ)
      * (cssRun (simulateSummarization (n + 1) inst out ss) (sys + ctx)
          (sys + ctx + ss) ss sub (getCacheWritePrice m ttl * tier)
          (m.pricing.cache_read_1k.getD 0 * tier) (m.pricing.input_1k * tier)
          (n + 1) 1 false).2.2 :=
    mul_nonneg hstud0 hcss.2.2
  have houtc : 0 ≤ ((students * (n + 1) : ℕ) : ℚ) * (out / 1000)
      * (m.pricing.output_1k * tier) :=
    term_nonneg hR0 hout (mul_nonneg hoU htier)
  have hsum : 0 ≤ (students : ℚ)
      * ((simulateSummarization (n + 1) inst out ss).numSummarizations : ℚ)
      * ((sys + inst) / 1000 * (m.pricing.input_1k * tier)
        + ss / 1000 * (m.pricing.output_1k * tier)) :=
    mul_nonneg (mul_nonneg hstud0 (Nat.cast_nonneg _))
      (add_nonneg (mul_nonneg (div_nonneg (by linarith) (by norm_num)) hpIn)
        (mul_nonneg (div_nonneg hss (by norm_num)) (mul_nonneg hoU htier)))
  exact ⟨hcw, hcrd, hfresh, houtc, le_refl 0,
    add_nonneg (add_nonneg (add_nonneg (add_nonneg hcw hcrd) hfresh) houtc) hsum⟩

/-- C7: every field of every strategy breakdown (cacheWrite, cacheRead,
freshInput, output, guardrails, total) is non-negative for non-negative
token counts and prices, a non-negative tier multiplier and at least one
student making at least one request — including computeSumCacheSummary,
whose cacheWrite subtracts the shared-prefix write correction. -/
theorem c7_breakdowns_nonneg (m : BedrockModel) (students reqs : ℕ)
    (sys ctx sub inst out ss tier : ℚ) (ttl : CacheTTL) (sc : Bool)
    (hm : m.pricing.NonNeg)
    (hsys : 0 ≤ sys) (hctx : 0 ≤ ctx) (hsub : 0 ≤ sub) (hinst : 0 ≤ inst)
    (hout : 0 ≤ out) (hss : 0 ≤ ss) (htier : 0 ≤ tier)
    (hstud : 1 ≤ students) (hreqs : 1 ≤ reqs) :
    (computeNoCaching m students reqs sys ctx sub inst out tier).NonNegFields ∧
    (computeStrategyA m students reqs sys ctx sub inst out tier ttl).NonNegFields ∧
    (computeStrategyB m students reqs sys ctx sub inst out tier sc ttl).NonNegFields ∧
    (computeBatch m students reqs sys ctx sub inst out tier).NonNegFields ∧
    (computeSumNoCaching m students reqs sys ctx sub inst out ss
      tier).toCostBreakdown.NonNegFields ∧
    (computeSumCacheAssessment m students reqs sys ctx sub inst out ss tier
      ttl).toCostBreakdown.NonNegFields ∧
    (computeSumCacheSummary m students reqs sys ctx sub inst out ss tier
      ttl).toCostBreakdown.NonNegFields :=
  ⟨computeNoCaching_nonneg m students reqs sys ctx sub inst out tier hm
      hsys hctx hsub hinst hout htier,
   computeStrategyA_nonneg m students reqs sys ctx sub inst out tier ttl hm
      hsys hctx hsub hinst hout htier hstud hreqs,
   computeStrategyB_nonneg m students reqs sys ctx sub inst out tier sc ttl hm
      hsys hctx hsub hinst hout htier hstud hreqs,
   computeBatch_nonneg m students reqs sys ctx sub inst out tier hm
      hsys hctx hsub hinst hout htier,
   computeSumNoCaching_nonneg m students reqs sys ctx sub inst out ss tier hm
      hsys hctx hsub hinst hout hss htier,
   computeSumCacheAssessment_nonneg m students reqs sys ctx sub inst out ss tier
      ttl hm hsys hctx hsub hinst hout hss htier hstud hreqs,
   computeSumCacheSummary_nonneg m students reqs sys ctx sub inst out ss tier
      ttl hm hsys hctx hsub hinst hout hss htier hstud hreqs⟩

/-- C7 witness: non-negativity of all seven breakdowns for the
Anthropic-like price list on a concrete conversational workload. -/
theorem c7_witness :
    (anthModel.pricing.NonNeg ∧ (0 : ℚ) ≤ 1000 ∧ (0 : ℚ) ≤ 2000 ∧
      (0 : ℚ) ≤ 1500 ∧ (0 : ℚ) ≤ 500 ∧ (0 : ℚ) ≤ 400 ∧ (0 : ℚ) ≤ 200 ∧
      (0 : ℚ) ≤ 1 ∧ 1 ≤ 3 ∧ 1 ≤ 4) ∧
    (computeNoCaching anthModel 3 4 1000 2000 1500 500 400 1).NonNegFields ∧
    (computeStrategyA anthModel 3 4 1000 2000 1500 500 400 1
      CacheTTL.fiveMin).NonNegFields ∧
    (computeStrategyB anthModel 3 4 1000 2000 1500 500 400 1 false
      CacheTTL.fiveMin).NonNegFields ∧
    (computeBatch anthModel 3 4 1000 2000 1500 500 400 1).NonNegFields ∧
    (computeSumNoCaching anthModel 3 4 1000 2000 1500 500 400 200
      1).toCostBreakdown.NonNegFields ∧
    (computeSumCacheAssessment anthModel 3 4 1000 2000 1500 500 400 200 1
      CacheTTL.fiveMin).toCostBreakdown.NonNegFields ∧
    (computeSumCacheSummary anthModel 3 4 1000 2000 1500 500 400 200 1
      CacheTTL.fiveMin).toCostBreakdown.NonNegFields :=
  ⟨⟨by norm_num [ModelPricing.NonNeg, anthModel], by norm_num, by norm_num,
      by norm_num, by norm_num, by norm_num, by norm_num, by norm_num,
      by norm_num, by norm_num⟩,
   c7_breakdowns_nonneg anthModel 3 4 1000 2000 1500 500 400 200 1
     CacheTTL.fiveMin false (by norm_num [ModelPricing.NonNeg, anthModel])
     (by norm_num) (by norm_num) (by norm_num) (by norm_num) (by norm_num)
     (by norm_num) (by norm_num) (by norm_num) (by norm_num)⟩

/-- Inserting the live value into a strictly sorted grid keeps it strictly
sorted and makes it contain the live value. -/
theorem insertCurrent_sorted_mem (pts : List ℤ) (cv : ℤ)
    (h : List.Sorted (· < ·) pts) :
    List.Sorted (· < ·) (insertCurrent pts cv) ∧ cv ∈ insertCurrent pts cv := by
  unfold insertCurrent
  by_cases hm : cv ∈ pts
  · rw [if_pos hm]
    exact ⟨h, hm⟩
  · rw [if_neg hm]
    have hperm := List.perm_insertionSort (α := ℤ) (· ≤ ·) (pts ++ [cv])
    have hsle : List.Sorted (· ≤ ·) (List.insertionSort (· ≤ ·) (pts ++ [cv])) :=
      List.sorted_insertionSort (· ≤ ·) (pts ++ [cv])
    have hnodup : (pts ++ [cv]).Nodup := by
      simp [List.nodup_append, h.nodup, hm]
    have hnodup2 : (List.insertionSort (· ≤ ·) (pts ++ [cv])).Nodup :=
      hperm.nodup_iff.mpr hnodup
    exact ⟨hsle.lt_of_le hnodup2, hperm.mem_iff.mpr (by simp)⟩

/-- C8: the parameter values of a computed sweep are strictly increasing
and contain the current live value of the swept parameter, for every
sweepable parameter and every live value. -/
theorem c8_sweep_values_sorted (key : SensitivityParamKey) (cv : ℤ) :
    List.Sorted (· < ·) (samplePointsFor (SENSITIVITY_SAMPLE_POINTS key) cv) ∧
    cv ∈ samplePointsFor (SENSITIVITY_SAMPLE_POINTS key) cv := by
  refine insertCurrent_sorted_mem _ _ ?_
  cases key with
  | students =>
    rw [show linspacePoints (SENSITIVITY_SAMPLE_POINTS SensitivityParamKey.students)
        = [5, 10, 15, 20, 25, 30, 35, 40, 45, 50, 55, 60, 65, 70, 75, 80, 85, 90,
           95, 100, 105, 110, 115, 120, 125, 130, 135, 140, 145, 150, 155, 160,
           165, 170, 175, 180, 185, 190, 195, 200] from by
      norm_num [linspacePoints, SENSITIVITY_SAMPLE_POINTS, List.range_succ, round_eq]]
    decide
  | reqsPerStudent =>
    rw [show linspacePoints (SENSITIVITY_SAMPLE_POINTS SensitivityParamKey.reqsPerStudent)
        = [1, 6, 11, 16, 21, 27, 32, 37, 42, 47, 52, 57, 62, 67, 72, 78, 83, 88,
           93, 98, 103, 108, 113, 118, 123, 129, 134, 139, 144, 149, 154, 159,
           164, 169, 174, 180, 185, 190, 195, 200] from by
      norm_num [linspacePoints, SENSITIVITY_SAMPLE_POINTS, List.range_succ, round_eq]]
    decide
  | sysTokens =>
    rw [show linspacePoints (SENSITIVITY_SAMPLE_POINTS SensitivityParamKey.sysTokens)
        = [100, 354, 608, 862, 1115, 1369, 1623, 1877, 2131, 2385, 2638, 2892,
           3146, 3400, 3654, 3908, 4162, 4415, 4669, 4923, 5177, 5431, 5685,
           5938, 6192, 6446, 6700, 6954, 7208, 7462, 7715, 7969, 8223, 8477,
           8731, 8985, 9238, 9492, 9746, 10000] from by
      norm_num [linspacePoints, SENSITIVITY_SAMPLE_POINTS, List.range_succ, round_eq]]
    decide
  | ctxTokens =>
    rw [show linspacePoints (SENSITIVITY_SAMPLE_POINTS SensitivityParamKey.ctxTokens)
        = [500, 3051, 5603, 8154, 10705, 13256, 15808, 18359, 20910, 23462,
           26013, 28564, 31115, 33667, 36218, 38769, 41321, 43872, 46423, 48974,
           51526, 54077, 56628, 59179, 61731, 64282, 66833, 69385, 71936, 74487,
           77038, 79590, 82141, 84692, 87244, 89795, 92346, 94897, 97449,
           100000] from by
      norm_num [linspacePoints, SENSITIVITY_SAMPLE_POINTS, List.range_succ, round_eq]]
    decide
  | subTokens =>
    rw [show linspacePoints (SENSITIVITY_SAMPLE_POINTS SensitivityParamKey.subTokens)
        = [100, 610, 1121, 1631, 2141, 2651, 3162, 3672, 4182, 4692, 5203, 5713,
           6223, 6733, 7244, 7754, 8264, 8774, 9285, 9795, 10305, 10815, 11326,
           11836, 12346, 12856, 13367, 13877, 14387, 14897, 15408, 15918, 16428,
           16938, 17449, 17959, 18469, 18979, 19490, 20000] from by
      norm_num [linspacePoints, SENSITIVITY_SAMPLE_POINTS, List.range_succ, round_eq]]
    decide
  | instTokens =>
    rw [show linspacePoints (SENSITIVITY_SAMPLE_POINTS SensitivityParamKey.instTokens)
        = [50, 305, 560, 815, 1071, 1326, 1581, 1836, 2091, 2346, 2601, 2856,
           3112, 3367, 3622, 3877, 4132, 4387, 4642, 4897, 5153, 5408, 5663,
           5918, 6173, 6428, 6683, 6938, 7194, 7449, 7704, 7959, 8214, 8469,
           8724, 8979, 9235, 9490, 9745, 10000] from by
      norm_num [linspacePoints, SENSITIVITY_SAMPLE_POINTS, List.range_succ, round_eq]]
    decide
  | outputTokens =>
    rw [show linspacePoints (SENSITIVITY_SAMPLE_POINTS SensitivityParamKey.outputTokens)
        = [100, 354, 608, 862, 1115, 1369, 1623, 1877, 2131, 2385, 2638, 2892,
           3146, 3400, 3654, 3908, 4162, 4415, 4669, 4923, 5177, 5431, 5685,
           5938, 6192, 6446, 6700, 6954, 7208, 7462, 7715, 7969, 8223, 8477,
           8731, 8985, 9238, 9492, 9746, 10000] from by
      norm_num [linspacePoints, SENSITIVITY_SAMPLE_POINTS, List.range_succ, round_eq]]
    decide

/-- The stabilization scan leaves an empty sweep empty, for any fuel. -/
theorem stabilizeGo_nil (fuel : ℕ) : stabilizeGo fuel [] = [] := by
  cases fuel <;> rfl

/-- dropWhile never lengthens a list. -/
theorem dropWhile_length_le {α : Type} (p : α → Bool) :
    ∀ l : List α, (l.dropWhile p).length ≤ l.length := by
  intro l
  induction l with
  | nil => simp
  | cons x xs ih =>
    rw [List.dropWhile_cons]
    split_ifs
    · exact le_trans ih (Nat.le_succ _)
    · simp

/-- The stabilization scan does not depend on the fuel, as long as the
fuel covers the length of the sweep. -/
theorem stabilizeGo_fuel : ∀ (f1 f2 : ℕ) (l : List SweepPoint),
    l.length ≤ f1 → l.length ≤ f2 → stabilizeGo f1 l = stabilizeGo f2 l := by
  intro f1
  induction f1 with
  | zero =>
    intro f2 l h1 _
    rw [List.eq_nil_of_length_eq_zero (Nat.le_zero.mp h1)]
    simp only [stabilizeGo_nil]
  | succ n ih =>
    intro f2 l h1 h2
    cases l with
    | nil => rw [stabilizeGo_nil, stabilizeGo_nil]
    | cons pt rest =>
      cases f2 with
      | zero => simp at h2
      | succ m =>
        simp only [stabilizeGo]
        by_cases hp : nearTie pt = true
        · rw [if_pos hp, if_pos hp,
            ih m (rest.dropWhile nearTie)
              (le_trans (dropWhile_length_le nearTie rest) (by simpa using h1))
              (le_trans (dropWhile_length_le nearTie rest) (by simpa using h2))]
        · rw [if_neg hp, if_neg hp,
            ih m rest (by simpa using h1) (by simpa using h2)]

/-- Splitting takeWhile/dropWhile around an all-true block that is followed
by a failing (or absent) head. -/
theorem span_append_all {α : Type} (p : α → Bool) (xs ys : List α)
    (hxs : ∀ x ∈ xs, p x = true) (hys : ∀ y, ys.head? = some y → p y = false) :
    (xs ++ ys).takeWhile p = xs ∧ (xs ++ ys).dropWhile p = ys := by
  induction xs with
  | nil =>
    cases ys with
    | nil => simp
    | cons y ys' =>
      have hy : p y = false := hys y rfl
      simp [List.takeWhile_cons, List.dropWhile_cons, hy]
  | cons x xs' ih =>
    have hx : p x = true := hxs x (List.mem_cons_self x xs')
    obtain ⟨iht, ihd⟩ := ih (fun z hz => hxs z (List.mem_cons_of_mem x hz))
    constructor
    · rw [List.cons_append, List.takeWhile_cons, if_pos hx, iht]
    · rw [List.cons_append, List.dropWhile_cons, if_pos hx, ihd]

/-- Splitting takeWhile/dropWhile over an append whose left part already
contains a failing element. -/
theorem span_append_of_drop_ne {α : Type} (p : α → Bool) (xs ys : List α)
    (h : xs.dropWhile p ≠ []) :
    (xs ++ ys).takeWhile p = xs.takeWhile p ∧
      (xs ++ ys).dropWhile p = xs.dropWhile p ++ ys := by
  induction xs with
  | nil => simp [List.dropWhile] at h
  | cons x xs' ih =>
    by_cases hx : p x = true
    · have h' : xs'.dropWhile p ≠ [] := by
        rw [List.dropWhile_cons, if_pos hx] at h
        exact h
      obtain ⟨iht, ihd⟩ := ih h'
      constructor
      · rw [List.cons_append, List.takeWhile_cons, if_pos hx, iht,
          List.takeWhile_cons, if_pos hx]
      · rw [List.cons_append, List.dropWhile_cons, if_pos hx, ihd,
          List.dropWhile_cons, if_pos hx]
    · constructor
      · rw [List.cons_append, List.takeWhile_cons, if_neg hx,
          List.takeWhile_cons, if_neg hx]
      · rw [List.cons_append, List.dropWhile_cons, if_neg hx,
          List.dropWhile_cons, if_neg hx, List.cons_append]

/-- dropWhile keeps the last element when it is non-empty. -/
theorem dropWhile_getLast? {α : Type} (p : α → Bool) :
    ∀ l : List α, l.dropWhile p ≠ [] → (l.dropWhile p).getLast? = l.getLast? := by
  intro l
  induction l with
  | nil => intro h; simp [List.dropWhile] at h
  | cons x xs ih =>
    intro h
    by_cases hx : p x = true
    · rw [List.dropWhile_cons, if_pos hx] at h ⊢
      cases hxs : xs with
      | nil =>
        subst hxs
        simp [List.dropWhile] at h
      | cons y ys =>
        subst hxs
        rw [ih h]
        exact List.getLast?_cons_cons.symm
    · rw [List.dropWhile_cons, if_neg hx]

/-- One unfolding step of the stabilization scan. -/
theorem stabilizeGo_cons (fuel : ℕ) (pt : SweepPoint) (rest : List SweepPoint) :
    stabilizeGo (fuel + 1) (pt :: rest)
      = if nearTie pt then
          (pt :: rest.takeWhile nearTie).map
            (assignFrom
              (match rest.dropWhile nearTie with
               | r :: _ => r
               | [] => (pt :: rest.takeWhile nearTie).getLastD pt))
            ++ stabilizeGo fuel (rest.dropWhile nearTie)
        else pt :: stabilizeGo fuel rest := rfl

/-- The stabilization pass walks over a non-tie head point unchanged. -/
theorem stabilize_cons_neg (pt : SweepPoint) (rest : List SweepPoint)
    (hp : ¬nearTie pt = true) :
    stabilize (pt :: rest) = pt :: stabilize rest := by
  show stabilizeGo (rest.length + 1) (pt :: rest) = _
  rw [stabilizeGo_cons, if_neg hp]
  exact congrArg _ (stabilizeGo_fuel _ _ _ le_rfl le_rfl)

/-- The stabilization pass at a near-tie head point whose following
near-tie run ends before the grid does: the run maps to the resolving
point's winner, and the scan restarts at the resolving point. -/
theorem stabilize_cons_pos_of_drop (pt d : SweepPoint)
    (rest ds' : List SweepPoint) (hp : nearTie pt = true)
    (hdrop : rest.dropWhile nearTie = d :: ds') :
    stabilize (pt :: rest)
      = (pt :: rest.takeWhile nearTie).map (assignFrom d)
        ++ stabilize (d :: ds') := by
  show stabilizeGo (rest.length + 1) (pt :: rest) = _
  rw [stabilizeGo_cons, if_pos hp, hdrop]
  congr 1
  apply stabilizeGo_fuel
  · have := dropWhile_length_le nearTie rest
    rw [hdrop] at this
    exact this
  · exact le_rfl

/-- Decomposition of the stabilization scan when the sweep starts with the
near-tie run: the whole run receives the winner of the resolving point. -/
theorem stabilize_decomp_nil (run b : List SweepPoint) (hrun : run ≠ [])
    (hties : ∀ p ∈ run, nearTie p = true)
    (hb : ∀ p, b.head? = some p → nearTie p = false) :
    stabilize (run ++ b)
      = run.map (assignFrom (resolveOf run b)) ++ stabilize b := by
  obtain ⟨q, qs, rfl⟩ := List.exists_cons_of_ne_nil hrun
  have hq : nearTie q = true := hties q (List.mem_cons_self q qs)
  have hqs : ∀ x ∈ qs, nearTie x = true :=
    fun x hx => hties x (List.mem_cons_of_mem q hx)
  obtain ⟨hTake, hDrop⟩ := span_append_all nearTie qs b hqs hb
  rw [List.cons_append]
  unfold stabilize
  rw [List.length_cons]
  simp only [stabilizeGo, if_pos hq, hTake, hDrop]
  cases b with
  | nil =>
    simp only [stabilizeGo_nil, List.append_nil]
    simp only [resolveOf, List.getLastD_cons]
  | cons r bs =>
    simp only [resolveOf]
    congr 1
    exact stabilizeGo_fuel (qs ++ r :: bs).length (r :: bs).length (r :: bs)
      (by simp) le_rfl

/-- Decomposition of the stabilization scan around any maximal near-tie
run: the points before the run are stabilized as if alone, the run
receives the winner of the resolving point, and the rest is stabilized
as if alone. -/
theorem stabilize_decomp : ∀ (n : ℕ) (a run b : List SweepPoint),
    a.length ≤ n → run ≠ [] → (∀ p ∈ run, nearTie p = true) →
    (∀ p, a.getLast? = some p → nearTie p = false) →
    (∀ p, b.head? = some p → nearTie p = false) →
    stabilize (a ++ run ++ b)
      = stabilize a ++ run.map (assignFrom (resolveOf run b)) ++ stabilize b := by
  intro n
  induction n with
  | zero =>
    intro a run b ha hrun hties hlast hb
    obtain rfl : a = [] := List.eq_nil_of_length_eq_zero (Nat.le_zero.mp ha)
    simp only [List.nil_append]
    exact stabilize_decomp_nil run b hrun hties hb
  | succ n ih =>
    intro a run b ha hrun hties hlast hb
    cases a with
    | nil =>
      simp only [List.nil_append]
      exact stabilize_decomp_nil run b hrun hties hb
    | cons p a' =>
      have hlen : a'.length ≤ n := by simpa using ha
      by_cases hp : nearTie p = true
      · have ha'ne : a' ≠ [] := by
          intro h
          subst h
          have := hlast p (by simp)
          simp [this] at hp
        have hlastA : ∀ q, a'.getLast? = some q → nearTie q = false := by
          intro q hq
          apply hlast q
          obtain ⟨y, ys, rfl⟩ := List.exists_cons_of_ne_nil ha'ne
          rw [List.getLast?_cons_cons]
          exact hq
        have hdne : a'.dropWhile nearTie ≠ [] := by
          intro hnil
          have hall := List.dropWhile_eq_nil_iff.mp hnil
          have hmem : a'.getLast ha'ne ∈ a' := List.getLast_mem ha'ne
          have hfalse : nearTie (a'.getLast ha'ne) = false :=
            hlastA _ (List.getLast?_eq_getLast a' ha'ne)
          have htrue := hall _ hmem
          simp [htrue] at hfalse
        obtain ⟨hT, hD⟩ := span_append_of_drop_ne nearTie a' (run ++ b) hdne
        obtain ⟨d, ds, hds⟩ := List.exists_cons_of_ne_nil hdne
        have hlast2 : ∀ q, (d :: ds).getLast? = some q → nearTie q = false := by
          intro q hq
          apply hlastA q
          rw [← dropWhile_getLast? nearTie a' hdne, hds]
          exact hq
        have hlen2 : (d :: ds).length ≤ n := by
          have := dropWhile_length_le nearTie a'
          rw [hds] at this
          omega
        have hdropBig : (a' ++ (run ++ b)).dropWhile nearTie
            = d :: (ds ++ (run ++ b)) := by
          rw [hD, hds, List.cons_append]
        rw [show (p :: a') ++ run ++ b = p :: (a' ++ (run ++ b)) from by simp]
        rw [stabilize_cons_pos_of_drop p d (a' ++ (run ++ b)) (ds ++ (run ++ b))
          hp hdropBig, hT]
        rw [show (d :: (ds ++ (run ++ b))) = (d :: ds) ++ run ++ b from by simp]
        rw [ih (d :: ds) run b hlen2 hrun hties hlast2 hb]
        rw [stabilize_cons_pos_of_drop p d a' ds hp hds]
        simp [List.append_assoc]
      · have hp' : ¬nearTie p = true := hp
        have hlastA : ∀ q, a'.getLast? = some q → nearTie q = false := by
          intro q hq
          apply hlast q
          cases a' with
          | nil => simp at hq
          | cons y ys =>
            rw [List.getLast?_cons_cons]
            exact hq
        rw [show (p :: a') ++ run ++ b = p :: (a' ++ run ++ b) from by simp]
        rw [stabilize_cons_neg p (a' ++ run ++ b) hp']
        rw [ih a' run b hlen hrun hties hlastA hb]
        rw [stabilize_cons_neg p a' hp']
        simp

/-- C2: in the stabilization pass, every maximal run of consecutive
near-tie grid points (gap of the two cheapest strategies below 0.005) is
assigned the winner and winner color of the first point after the run, or
of the last grid point when the run reaches the end of the grid.  In
particular, for the three consecutive points with strategy costs
[10.001, 9.999], [10.000, 10.000], [12.0, 8.0], the winner at the first
two points equals the winner computed at the third point. -/
theorem c2_stabilization_pass (a run b : List SweepPoint) (hrun : run ≠ [])
    (hties : ∀ p ∈ run, nearTie p = true)
    (hlast : ∀ p, a.getLast? = some p → nearTie p = false)
    (hhead : ∀ p, b.head? = some p → nearTie p = false) :
    stabilize (a ++ run ++ b)
      = stabilize a ++ run.map (assignFrom (resolveOf run b)) ++ stabilize b ∧
    (stabilize [tiePoint1, tiePoint2, tiePoint3]).map SweepPoint.winner
      = [tiePoint3.winner, tiePoint3.winner, tiePoint3.winner] ∧
    (stabilize [tiePoint1, tiePoint2, tiePoint3]).map SweepPoint.winnerColor
      = [tiePoint3.winnerColor, tiePoint3.winnerColor, tiePoint3.winnerColor] ∧
    tiePoint3.winner = "Per-Assignment Cache" := by
  refine ⟨stabilize_decomp a.length a run b le_rfl hrun hties hlast hhead,
    ?_, ?_, ?_⟩
  · norm_num [stabilize, stabilizeGo, nearTie, tieGap, sortCosts, assignFrom,
      pickWinner, costOrder, strategyTiebreak, colorFor, mkRawPoint, tiePoint1,
      tiePoint2, tiePoint3, List.insertionSort, List.orderedInsert,
      List.takeWhile, List.dropWhile]
  · norm_num [stabilize, stabilizeGo, nearTie, tieGap, sortCosts, assignFrom,
      pickWinner, costOrder, strategyTiebreak, colorFor, mkRawPoint, tiePoint1,
      tiePoint2, tiePoint3, List.insertionSort, List.orderedInsert,
      List.takeWhile, List.dropWhile]
  · norm_num [tiePoint3, mkRawPoint, pickWinner, costOrder, strategyTiebreak,
      List.insertionSort, List.orderedInsert]

/-- C2 witness: the stabilization theorem applied to the concrete
three-point example, with the near-tie run [tiePoint1, tiePoint2] resolved
by tiePoint3. -/
theorem c2_witness :
    (([tiePoint1, tiePoint2] : List SweepPoint) ≠ [] ∧
      (∀ p ∈ [tiePoint1, tiePoint2], nearTie p = true) ∧
      (∀ p : SweepPoint, ([] : List SweepPoint).getLast? = some p →
        nearTie p = false) ∧
      (∀ p : SweepPoint, [tiePoint3].head? = some p → nearTie p = false)) ∧
    (stabilize ([] ++ [tiePoint1, tiePoint2] ++ [tiePoint3])
      = stabilize [] ++ [tiePoint1, tiePoint2].map
          (assignFrom (resolveOf [tiePoint1, tiePoint2] [tiePoint3]))
        ++ stabilize [tiePoint3] ∧
    (stabilize [tiePoint1, tiePoint2, tiePoint3]).map SweepPoint.winner
      = [tiePoint3.winner, tiePoint3.winner, tiePoint3.winner] ∧
    (stabilize [tiePoint1, tiePoint2, tiePoint3]).map SweepPoint.winnerColor
      = [tiePoint3.winnerColor, tiePoint3.winnerColor, tiePoint3.winnerColor] ∧
    tiePoint3.winner = "Per-Assignment Cache") :=
  ⟨⟨by simp,
    by
      intro p hp
      rcases List.mem_cons.mp hp with rfl | hp'
      · norm_num [nearTie, tieGap, sortCosts, tiePoint1, mkRawPoint,
          List.insertionSort, List.orderedInsert]
      · rcases List.mem_cons.mp hp' with rfl | hp''
        · norm_num [nearTie, tieGap, sortCosts, tiePoint2, mkRawPoint,
            List.insertionSort, List.orderedInsert]
        · simp at hp''
    ,
    by intro p hp; simp at hp,
    by
      intro p hp
      simp only [List.head?] at hp
      cases hp
      norm_num [nearTie, tieGap, sortCosts, tiePoint3, mkRawPoint,
        List.insertionSort, List.orderedInsert]⟩,
   c2_stabilization_pass [] [tiePoint1, tiePoint2] [tiePoint3]
     (by simp)
     (by
       intro p hp
       rcases List.mem_cons.mp hp with rfl | hp'
       · norm_num [nearTie, tieGap, sortCosts, tiePoint1, mkRawPoint,
           List.insertionSort, List.orderedInsert]
       · rcases List.mem_cons.mp hp' with rfl | hp''
         · norm_num [nearTie, tieGap, sortCosts, tiePoint2, mkRawPoint,
             List.insertionSort, List.orderedInsert]
         · simp at hp'')
     (by intro p hp; simp at hp)
     (by
       intro p hp
       simp only [List.head?] at hp
       cases hp
       norm_num [nearTie, tieGap, sortCosts, tiePoint3, mkRawPoint,
         List.insertionSort, List.orderedInsert])⟩
